import Mathlib

/-!
Verification of the wdio-openapi-coverage-service core engine.

The TypeScript sources are shallowly embedded over `Str := List Char`
(JavaScript strings are sequences of UTF-16 units; every path and endpoint
key handled by the engine is plain ASCII, so `List Char` is a faithful
carrier).  JavaScript's `Set`/`Map` (which preserve insertion order) are
embedded as association lists with the corresponding insert semantics, and
`RegExp` values carried inside operator-supplied `IPathPattern` objects are
embedded as their extensional behaviour: a `test` predicate plus a
`replace` function, exactly the two operations the code applies to them.
Concrete regexes used by counterexamples are instantiated with the
extensional behaviour of an explicit concrete JavaScript regex, noted at
the instantiation site.
-/

/-- JavaScript string carrier for the embedding. -/
abbrev Str := List Char

/-- Build a `Str` from a Lean string literal. -/
def sl (s : String) : Str := s.toList

/-- Substring test, the embedding of JavaScript `hay.includes(needle)`. -/
def strIncludes (hay needle : Str) : Bool :=
  hay.tails.any (fun t => needle.isPrefixOf t)

/-- First component of `e.split(' ', 2)`: the prefix before the first space. -/
def methodOf (e : Str) : Str := e.takeWhile (fun c => c ≠ ' ')

/-- Second component of `e.split(' ', 2)`: the run between the first and the
second space.  JavaScript yields `undefined` when there is no space at all;
the callers guard that case (`if (!path)`), and the embedding returns `[]`,
which the same guards treat identically. -/
def pathOf (e : Str) : Str :=
  ((e.dropWhile (fun c => c ≠ ' ')).drop 1).takeWhile (fun c => c ≠ ' ')

/-- Embedding of JavaScript `String.prototype.split` with a one-character
separator. -/
def splitCh (c : Char) : Str → List Str
  | [] => [[]]
  | x :: xs =>
    let r := splitCh c xs
    if x = c then [] :: r
    else
      match r with
      | [] => [[x]]
      | g :: gs => (x :: g) :: gs

/-- The code's `path.split('/').filter(Boolean)`. -/
def segmentsOf (p : Str) : List Str := (splitCh '/' p).filter (fun s => s ≠ [])

/-- A template parameter segment: `segment.startsWith('{') && segment.endsWith('}')`. -/
def isParamSeg (s : Str) : Bool := s.head? == some '{' && s.getLast? == some '}'

/-- A templated endpoint key: `key.includes('{') && key.includes('}')`. -/
def isTemplatedKey (e : Str) : Bool := e.contains '{' && e.contains '}'

/-- Lower-case hexadecimal digit, the character class `[0-9a-f]`. -/
def isHexLower (c : Char) : Bool :=
  ('0' ≤ c && c ≤ '9') || ('a' ≤ c && c ≤ 'f')

/-- The test `/^[0-9a-f]{24}$/.test(segment)` (MongoDB ObjectId shape). -/
def isMongoId (s : Str) : Bool := s.length == 24 && s.all isHexLower

/-- Embedding of `endpointMatchesTemplate` from the axios-interceptor module
(the file-utils module contains a character-for-character identical copy).
A template segment accepts any concrete segment: the source's inner MongoDB
ObjectId test `continue`s on both branches, so it is behaviourally a
constant `true` and is embedded as such. -/
def endpointMatchesTemplate (concreteEndpoint templateEndpoint : Str) : Bool :=
  if methodOf concreteEndpoint ≠ methodOf templateEndpoint then false
  else
    let cs := segmentsOf (pathOf concreteEndpoint)
    let ts := segmentsOf (pathOf templateEndpoint)
    if cs.length ≠ ts.length then false
    else (ts.zip cs).all (fun p => if isParamSeg p.1 then true else p.1 == p.2)

/-- JavaScript `Set.prototype.add`: append, keeping the first position on a
duplicate. -/
def setAdd (S : List Str) (k : Str) : List Str := if k ∈ S then S else S ++ [k]

/-- One observation inserted into the hit-endpoint set, embedding the
deduplication block of `createRequestInterceptor`: a templated key is added
and every concrete key matching it is removed; a concrete key is dropped
when an existing templated key matches it. -/
def hitInsert (S : List Str) (key : Str) : List Str :=
  if isTemplatedKey key then
    (setAdd S key).filter
      (fun e => isTemplatedKey e || ¬ endpointMatchesTemplate e key)
  else
    if S.any (fun e => isTemplatedKey e && endpointMatchesTemplate key e) then S
    else setAdd S key

/-- The hit set produced by a sequence of observations, starting empty. -/
def hitFold (keys : List Str) : List Str := keys.foldl hitInsert []

/-- The §3 coverage-set invariant: no templated key and concrete key in the
set structurally match each other. -/
def HitInv (S : List Str) : Prop :=
  ∀ t ∈ S, ∀ c ∈ S, isTemplatedKey t = true → isTemplatedKey c = false →
    endpointMatchesTemplate c t = false

/-- Embedding of `IOpenAPIDocument.paths` schema metadata
(`ISchemaObject`): only the four fields the pattern generator reads.
`enumVals` holds the enum entries already passed through JavaScript
`String(...)`, which is how the generator consumes them. -/
structure ISchemaObject where
  type : Option Str
  format : Option Str
  pattern : Option Str
  enumVals : Option (List Str)
deriving DecidableEq

/-- Embedding of `IParameterObject`: the fields the pattern generator
reads.  `ref` embeds the `$ref` field. -/
structure IParameterObject where
  name : Option Str
  schema : Option ISchemaObject
  ref : Option Str
deriving DecidableEq

/-- Embedding of `IOperationObject`: only its parameter list is read. -/
structure IOperationObject where
  parameters : Option (List IParameterObject)
deriving DecidableEq

/-- Embedding of `IPathItem`: path-level parameters plus the seven
operations the generator iterates. -/
structure IPathItem where
  parameters : Option (List IParameterObject)
  get : Option IOperationObject
  post : Option IOperationObject
  put : Option IOperationObject
  delete : Option IOperationObject
  patch : Option IOperationObject
  options : Option IOperationObject
  head : Option IOperationObject
deriving DecidableEq

/-- Embedding of `IOpenAPIDocument`.  `paths` is the ordered key/value
list of the JavaScript `paths` object (`Option IPathItem` models a
null/undefined path item, which the source skips as falsy);
`componentsParameters` embeds `components.parameters` (absent modelled as
`[]`, which the source treats identically). -/
structure IOpenAPIDocument where
  paths : List (Str × Option IPathItem)
  componentsParameters : List (Str × IParameterObject)
deriving DecidableEq

/-- The property lookup `apiSpec.paths[key]` as an association-list
search; JavaScript object keys are unique, matching `find?` first-hit
semantics. -/
def specLookup (doc : IOpenAPIDocument) (k : Str) : Option (Option IPathItem) :=
  (doc.paths.find? (fun kv => kv.1 == k)).map (fun kv => kv.2)

/-- Truthiness of `apiSpec?.paths && apiSpec.paths[key]` for step 1 of
`normalizePath`. -/
def specHasKey (spec? : Option IOpenAPIDocument) (k : Str) : Bool :=
  match spec? with
  | none => false
  | some d =>
    match specLookup d k with
    | some (some _) => true
    | _ => false

/-- Step 1.5 of `normalizePath`: the structural segment comparison between
a concrete path and one spec key (equal filtered segment count; a
`{param}` spec segment accepts anything; other segments compare
literally). -/
def pathStructMatches (p k : Str) : Bool :=
  (segmentsOf p).length == (segmentsOf k).length &&
    ((segmentsOf k).zip (segmentsOf p)).all
      (fun q => if isParamSeg q.1 then true else q.1 == q.2)

/-- The step 1.5 loop over `Object.entries(apiSpec.paths)`: first declared
key with a truthy item whose structure matches, if any. -/
def structMatchDoc (spec? : Option IOpenAPIDocument) (np : Str) : Option Str :=
  match spec? with
  | none => none
  | some d =>
    (d.paths.find? (fun kv => kv.2.isSome && pathStructMatches np kv.1)).map
      (fun kv => kv.1)

/-- Extensional embedding of a JavaScript `RegExp` as the two operations
`normalizePath` applies to it: `test`, and `replace tmpl input`
(`input.replace(re, tmpl)`).  Concrete instances used below state which
concrete regex they model. -/
structure JsRegex where
  test : Str → Bool
  replace : Str → Str → Str

/-- Embedding of `IPathPattern` (operator or generator supplied):
`priority` is optional and read as `priority || 0`. -/
structure IPathPattern where
  pattern : JsRegex
  template : Str
  priority : Option Int

/-- The sort key `priority || 0`. -/
def priorityKey (p : IPathPattern) : Int := p.priority.getD 0

/-- Stable insertion of one pattern into a priority-descending list:
walks past strictly higher priorities only, so earlier declarations keep
their place among equals. -/
def insDesc (p : IPathPattern) : List IPathPattern → List IPathPattern
  | [] => [p]
  | q :: qs =>
    if priorityKey p < priorityKey q then q :: insDesc p qs else p :: q :: qs

/-- Embedding of `[...customPatterns].sort((a, b) => (b.priority || 0) -
(a.priority || 0))`: JavaScript sort is stable, and a stable
priority-descending sort is unique, so this stable insertion sort computes
it. -/
def sortPatterns (ps : List IPathPattern) : List IPathPattern :=
  ps.foldr insDesc []

/-- The in-loop validity guards of step 2: `!pattern`, RegExp-ness and
template string-ness hold by typing; `!template` (the empty string is
falsy) survives in the embedding. -/
def patternUsable (p : IPathPattern) : Bool := p.template ≠ []

/-- The step 2 scan: first usable pattern whose regex accepts the path. -/
def firstMatch (path : Str) : List IPathPattern → Option IPathPattern
  | [] => none
  | p :: ps =>
    if patternUsable p && p.pattern.test path then some p
    else firstMatch path ps

/-- The value a winning pattern produces:
`normalizedInputPath.replace(pattern, template)`.  The source then tests
whether that value is a spec key, but returns the same value on both
branches (the test only selects a log line). -/
def applyPattern (p : IPathPattern) (path : Str) : Str :=
  p.pattern.replace p.template path

/-- Step 2 of `normalizePath` end to end: sort, scan, substitute. -/
def tryPatterns (ps : List IPathPattern) (path : Str) : Option Str :=
  (firstMatch path (sortPatterns ps)).map (fun p => applyPattern p path)

/-- The slash normalization `path.startsWith('/') ? path : '/' + path`. -/
def ensureSlash (p : Str) : Str := if p.head? == some '/' then p else '/' :: p

/-- Embedding of `normalizePath` (path-normalizer module): empty input
short-circuits to `''`; otherwise exact spec lookup, then the structural
spec scan, then the priority-ordered pattern scan, then the
slash-normalized original. -/
def normalizePath (path : Str) (apiSpec : Option IOpenAPIDocument)
    (customPatterns : Option (List IPathPattern)) : Str :=
  if path = [] then []
  else
    let np := ensureSlash path
    if specHasKey apiSpec np then np
    else
      match structMatchDoc apiSpec np with
      | some specPath => specPath
      | none =>
        match customPatterns with
        | some ps => if ps.length > 0 then (tryPatterns ps np).getD np else np
        | none => np

/-- Extensional behaviour of the anchored literal regex
`new RegExp('^' + lit + '$')` for a metacharacter-free literal `lit`:
`test` is equality with `lit`, and replacing rewrites the whole string to
the template. -/
def fullMatchRegex (lit : Str) : JsRegex :=
  ⟨fun s => s == lit, fun tmpl s => if s == lit then tmpl else s⟩

/-- Replace the first occurrence of `pat` (non-empty) in `hay` by `repl`,
via a fuel index; fuel `hay.length` suffices. -/
def replaceFirstAux (pat repl : Str) : Nat → Str → Str
  | _, [] => []
  | 0, hay => hay
  | fuel + 1, c :: rest =>
    if pat.isPrefixOf (c :: rest) then repl ++ (c :: rest).drop pat.length
    else c :: replaceFirstAux pat repl fuel rest

/-- Extensional behaviour of the unanchored literal regex `/lit/` for a
metacharacter-free, non-empty literal `lit`: `test` is substring
containment, and `replace` rewrites the first occurrence. -/
def substrRegex (lit : Str) : JsRegex :=
  ⟨fun s => strIncludes s lit,
   fun tmpl s => replaceFirstAux lit tmpl s.length s⟩

/-- The declared path list of an optional spec (empty when the spec is
absent). -/
def docPathsOf (spec? : Option IOpenAPIDocument) : List (Str × Option IPathItem) :=
  (spec?.map (fun d => d.paths)).getD []

/-- The pattern list of an optional pattern argument (empty when absent). -/
def patsOf (cps : Option (List IPathPattern)) : List IPathPattern :=
  cps.getD []

/-- A path item with no declared parameters or operations. -/
def emptyPathItem : IPathItem :=
  ⟨none, none, none, none, none, none, none, none⟩

/-- Two-template spec used against C1: both "/users/{id}" and "/{a}/{b}"
structurally match "/users/42". -/
def docTwoTemplates : IOpenAPIDocument :=
  ⟨[(sl "/users/{id}", some emptyPathItem), (sl "/{a}/{b}", some emptyPathItem)], []⟩

/-- One-template spec for the amended C1 statement's witness. -/
def docOneTemplate : IOpenAPIDocument :=
  ⟨[(sl "/users/{id}", some emptyPathItem)], []⟩

/-- C4 counterexample pattern: the operator-supplied custom pattern
`{pattern: /42/, template: '{cid}', priority: 100}`; `/42/` is modelled
extensionally (substring test, first-occurrence replacement), which is its
exact behaviour. -/
def patCustom42 : IPathPattern := ⟨substrRegex (sl "42"), sl "{cid}", some 100⟩

/-- C4 counterexample pattern: the spec-derived pattern
`{pattern: /^\/users\/(\d+)$/, template: '/users/{id}', priority: 50}`;
on the full-match inputs exercised here its behaviour coincides with the
anchored-literal model. -/
def patSpecUsers : IPathPattern :=
  ⟨fullMatchRegex (sl "/users/42"), sl "/users/{id}", some 50⟩

/-- C5 counterexample pattern `{pattern: /^\/a$/, template: '/b', priority: 100}`. -/
def patChainA : IPathPattern := ⟨fullMatchRegex (sl "/a"), sl "/b", some 100⟩

/-- C5 counterexample pattern `{pattern: /^\/b$/, template: '/c', priority: 100}`. -/
def patChainB : IPathPattern := ⟨fullMatchRegex (sl "/b"), sl "/c", some 100⟩

/-- The pattern scan acceptance predicate of step 2 (usable and regex
accepts). -/
def patAccepts (path : Str) (p : IPathPattern) : Bool :=
  patternUsable p && p.pattern.test path

/-- Collected bodies of `[...templatePath.matchAll(/{([^}]+)}/g)]`: scan
left to right, a match needs a non-empty brace-free body and a closing
brace; an unmatched opening brace advances one character.  Fuel
`t.length` suffices. -/
def paramNamesAux : Nat → Str → List Str
  | 0, _ => []
  | _, [] => []
  | fuel + 1, c :: rest =>
    if c = '{' then
      match rest.dropWhile (fun x => x ≠ '}'), rest.takeWhile (fun x => x ≠ '}') with
      | '}' :: tail, b :: bs => (b :: bs) :: paramNamesAux fuel tail
      | _, _ => paramNamesAux fuel rest
    else paramNamesAux fuel rest

/-- Parameter names of a templated spec path. -/
def collectParamNames (t : Str) : List Str := paramNamesAux t.length t

/-- Global literal replacement, the embedding of
`hay.replace(new RegExp(escaped literal, 'g'), repl)`: scanning resumes
after each replacement.  Fuel `hay.length` suffices. -/
def replaceAllAux (pat repl : Str) : Nat → Str → Str
  | 0, hay => hay
  | _, [] => []
  | fuel + 1, c :: rest =>
    if pat ≠ [] && pat.isPrefixOf (c :: rest) then
      repl ++ replaceAllAux pat repl fuel ((c :: rest).drop pat.length)
    else c :: replaceAllAux pat repl fuel rest

/-- Global literal replacement entry point. -/
def replaceAllStr (hay pat repl : Str) : Str := replaceAllAux pat repl hay.length hay

/-- ASCII lower-casing of `String.prototype.toLowerCase` (parameter names
are ASCII identifiers). -/
def toLowerAscii (c : Char) : Char :=
  if 'A' ≤ c && c ≤ 'Z' then Char.ofNat (c.toNat + 32) else c

/-- The `paramName.toLowerCase()` of the id heuristic. -/
def strToLower (s : Str) : Str := s.map toLowerAscii

/-- The default matcher `([^/]+)`. -/
def genericPat : Str := sl "([^/]+)"

/-- The integer/number matcher `(\d+)`. -/
def digitsPat : Str := sl "(\\d+)"

/-- The RFC4122 uuid matcher. -/
def uuidPat : Str :=
  sl "([0-9a-f]{8}-[0-9a-f]{4}-[0-9a-f]{4}-[0-9a-f]{4}-[0-9a-f]{12})"

/-- The ISO date matcher. -/
def datePat : Str := sl "(\\d{4}-\\d{2}-\\d{2})"

/-- The ISO date-time matcher. -/
def dateTimePat : Str :=
  sl "(\\d{4}-\\d{2}-\\d{2}T\\d{2}:\\d{2}:\\d{2}(\\.\\d+)?(Z|[+-]\\d{2}:\\d{2}))"

/-- The id-name heuristic matcher (digits, RFC4122 uuid, or 24-hex id). -/
def idHeuristicPat : Str :=
  sl "([0-9a-f]{24}|[0-9a-f]{8}-[0-9a-f]{4}-[0-9a-f]{4}-[0-9a-f]{4}-[0-9a-f]{12}|\\d+)"

/-- `enum.map(String).join('|')`. -/
def joinBar (l : List Str) : Str := List.intercalate (sl "|") l

/-- The per-parameter matcher selection of `generatePathPatterns`
(paramInfo present only when a named parameter with a schema was
resolved).  JavaScript truthiness of `paramInfo.pattern` (undefined or
empty string is falsy) is embedded as `getD [] ≠ []`, and likewise for the
enum length check. -/
def selectParamPattern (info? : Option ISchemaObject) (paramName : Str) : Str :=
  match info? with
  | none => genericPat
  | some info =>
    if info.pattern.getD [] ≠ [] then ('(' :: info.pattern.getD []) ++ [')']
    else if info.enumVals.getD [] ≠ [] then
      ('(' :: joinBar (info.enumVals.getD [])) ++ [')']
    else if info.type = some (sl "integer") ∨ info.type = some (sl "number") then
      digitsPat
    else if info.format = some (sl "uuid") then uuidPat
    else if info.format = some (sl "date") then datePat
    else if info.format = some (sl "date-time") then dateTimePat
    else if info.type = some (sl "string")
        ∧ strIncludes (strToLower paramName) (sl "id") = true then
      idHeuristicPat
    else genericPat

/-- Parameters visible on one path: path-level parameters, then the seven
operations' parameters in the source's iteration order. -/
def opParams (op? : Option IOperationObject) : List IParameterObject :=
  match op? with
  | some op => op.parameters.getD []
  | none => []

/-- `allParameters` of one path item. -/
def allParametersOf (item : IPathItem) : List IParameterObject :=
  item.parameters.getD [] ++ opParams item.get ++ opParams item.post
    ++ opParams item.put ++ opParams item.delete ++ opParams item.patch
    ++ opParams item.options ++ opParams item.head

/-- The `paramInfoMap` entry for one parameter name: a named parameter's
own schema, else its `$ref` resolved against `components.parameters`
(`$ref.split('/').pop()`, skipped when that pops a falsy empty string). -/
def paramInfoFor (doc : IOpenAPIDocument) (item : IPathItem)
    (paramName : Str) : Option ISchemaObject :=
  match (allParametersOf item).find? (fun pd => pd.name == some paramName) with
  | none => none
  | some pd =>
    match pd.schema with
    | some sch => some sch
    | none =>
      match pd.ref with
      | none => none
      | some refStr =>
        match (splitCh '/' refStr).getLast? with
        | none => none
        | some rn =>
          if rn ≠ [] then
            match doc.componentsParameters.find? (fun kv => kv.1 == rn) with
            | some kv =>
              match kv.2.schema with
              | some sch => some sch
              | none => none
            | none => none
          else none

/-- The full regex-source string built for one templated path: substitute
each `{name}` occurrence by its matcher, escape slashes, and anchor. -/
def buildPatternString (doc : IOpenAPIDocument) (item : IPathItem)
    (templatePath : Str) : Str :=
  let names := collectParamNames templatePath
  let substituted := names.foldl
    (fun acc n =>
      replaceAllStr acc (('{' :: n) ++ ['}'])
        (selectParamPattern (paramInfoFor doc item n) n))
    templatePath
  ('^' :: replaceAllStr substituted (sl "/") ['\\', '/']) ++ ['$']

/-- A generated `IPathPattern` as data: the regex source string, the
template, and the priority. -/
structure GenPattern where
  patternSource : Str
  template : Str
  priority : Int
deriving DecidableEq

/-- The per-path body of `generatePathPatterns`, parameterized by a
`regexOk` oracle deciding which regex sources `new RegExp` accepts: paths
without `{`, falsy path items, and paths whose regex construction throws
produce nothing (the loop's try/catch skips them). -/
def buildPatternFor (doc : IOpenAPIDocument) (regexOk : Str → Bool)
    (templatePath : Str) : Option GenPattern :=
  if ¬ templatePath.contains '{' then none
  else
    match specLookup doc templatePath with
    | some (some item) =>
      let src := buildPatternString doc item templatePath
      if (collectParamNames templatePath).all
            (fun n => regexOk (('\\' :: '{' :: n) ++ ['\\', '}']))
          && regexOk src then
        some ⟨src, templatePath, 50⟩
      else none
    | _ => none

/-- Embedding of `generatePathPatterns`. -/
def generatePathPatterns (spec? : Option IOpenAPIDocument)
    (regexOk : Str → Bool) : List GenPattern :=
  match spec? with
  | none => []
  | some doc =>
    (doc.paths.map (fun kv => kv.1)).filterMap (buildPatternFor doc regexOk)

/-- Modelled from the spec's words (§4.1): the claimed matcher precedence,
in which the id-name heuristic fires for any parameter whose name contains
"id" once the earlier schema-driven branches do not apply — with no
requirement that the parameter carry a declared string-typed schema. -/
def claimedParamPattern (info? : Option ISchemaObject) (paramName : Str) : Str :=
  match info? with
  | some info =>
    if info.pattern.getD [] ≠ [] then ('(' :: info.pattern.getD []) ++ [')']
    else if info.enumVals.getD [] ≠ [] then
      ('(' :: joinBar (info.enumVals.getD [])) ++ [')']
    else if info.type = some (sl "integer") ∨ info.type = some (sl "number") then
      digitsPat
    else if info.format = some (sl "uuid") then uuidPat
    else if info.format = some (sl "date") then datePat
    else if info.format = some (sl "date-time") then dateTimePat
    else if strIncludes (strToLower paramName) (sl "id") = true then idHeuristicPat
    else genericPat
  | none =>
    if strIncludes (strToLower paramName) (sl "id") = true then idHeuristicPat
    else genericPat

/-- Spec with one templated path "/things/{id}" and no parameter
declarations at all: the C6 counterexample document. -/
def docThings : IOpenAPIDocument :=
  ⟨[(sl "/things/{id}", some emptyPathItem)], []⟩

/-- The structure-key normalization
`normalizedPath.replace(/\x7b[^}]+\x7d/g, '\x7bPARAM\x7d')`: each brace
group with a non-empty brace-free body becomes the PARAM placeholder;
scanning resumes after a replacement.  Fuel `s.length` suffices. -/
def paramNormAux : Nat → Str → Str
  | 0, s => s
  | _, [] => []
  | fuel + 1, c :: rest =>
    if c = '{' then
      match rest.dropWhile (fun x => x ≠ '}'), rest.takeWhile (fun x => x ≠ '}') with
      | '}' :: tail, _ :: _ => sl "{PARAM}" ++ paramNormAux fuel tail
      | _, _ => c :: paramNormAux fuel rest
    else c :: paramNormAux fuel rest

/-- Parameter-normalized path. -/
def paramNormStr (s : Str) : Str := paramNormAux s.length s

/-- The structure key "METHOD path-with-PARAMs" used for structural
grouping in the report generator. -/
def structKeyMP (method path : Str) : Str := method ++ (' ' :: paramNormStr path)

/-- JavaScript `Map.prototype.set` on an insertion-ordered association
list: an existing key keeps its position and gets the new value; a new key
is appended. -/
def mapSet (m : List (Str × Str)) (k v : Str) : List (Str × Str) :=
  if m.any (fun kv => kv.1 = k) then
    m.map (fun kv => if kv.1 = k then (k, v) else kv)
  else m ++ [(k, v)]

/-- The `normalizedPath.replace(/\/+/g, '/')` slash collapse. -/
def collapseSlashesAux : Nat → Str → Str
  | 0, s => s
  | _, [] => []
  | fuel + 1, c :: rest =>
    if c = '/' then '/' :: collapseSlashesAux fuel (rest.dropWhile (fun x => x = '/'))
    else c :: collapseSlashesAux fuel rest

/-- Slash-collapse entry point. -/
def collapseSlashes (s : Str) : Str := collapseSlashesAux s.length s

/-- The malformed-placeholder test: the path includes one of the three
two-character sequences close-open, close-close, open-open brace. -/
def isMalformedPath (s : Str) : Bool :=
  strIncludes s ['}', '{'] || strIncludes s ['}', '}'] || strIncludes s ['{', '{']

/-- Embedding of `IEndpointPattern` (external literal-pattern file
entry): `re` is the extensional behaviour of `new RegExp(pattern)`,
`replaceName` the `replace` field, and `compiles` records whether
`new RegExp(pattern)` throws (a throwing pattern is caught and skipped). -/
structure IEndpointPattern where
  re : JsRegex
  replaceName : Str
  compiles : Bool

/-- One pattern application inside `normalizeEndpoints`: on a match,
substitute the braced replace name for the first regex match and collapse
duplicate slashes; otherwise leave the path unchanged. -/
def applyEndpointPattern (np : Str) (p : IEndpointPattern) : Str :=
  if p.compiles && p.re.test np then
    collapseSlashes (p.re.replace (('{' :: p.replaceName) ++ ['}']) np)
  else np

/-- All pattern applications in sequence. -/
def substPath (patterns : List IEndpointPattern) (path : Str) : Str :=
  patterns.foldl applyEndpointPattern path

/-- The malformed-result guard: a malformed substitution result is
rejected and the pre-substitution path used instead. -/
def keptPath (patterns : List IEndpointPattern) (path : Str) : Str :=
  if isMalformedPath (substPath patterns path) then path
  else substPath patterns path

/-- One endpoint processed into the deduplication map of
`normalizeEndpoints`: skip malformed or path-less endpoints, substitute
and possibly revert, then insert under the structure key — templated
endpoints always overwrite, concrete endpoints only fill an empty slot. -/
def processEndpoint (patterns : List IEndpointPattern)
    (m : List (Str × Str)) (endpoint : Str) : List (Str × Str) :=
  if isMalformedPath endpoint then m
  else if pathOf endpoint = [] then m
  else if isTemplatedKey
      (methodOf endpoint ++ (' ' :: keptPath patterns (pathOf endpoint))) then
    mapSet m (structKeyMP (methodOf endpoint) (keptPath patterns (pathOf endpoint)))
      (methodOf endpoint ++ (' ' :: keptPath patterns (pathOf endpoint)))
  else if m.any (fun kv =>
      kv.1 = structKeyMP (methodOf endpoint) (keptPath patterns (pathOf endpoint))) then
    m
  else
    mapSet m (structKeyMP (methodOf endpoint) (keptPath patterns (pathOf endpoint)))
      (methodOf endpoint ++ (' ' :: keptPath patterns (pathOf endpoint)))

/-- Embedding of `normalizeEndpoints`: the empty pattern list passes the
input through; otherwise the deduplication map's values in key insertion
order. -/
def normalizeEndpoints (endpoints : List Str)
    (patterns : List IEndpointPattern) : List Str :=
  if patterns.length = 0 then endpoints
  else (endpoints.foldl (processEndpoint patterns) []).map (fun kv => kv.2)

/-- C7 counterexample pattern file entry with pattern string "id" and
replace name "id" (the regex /id/ modelled extensionally: substring test,
first occurrence replaced). -/
def epPatId : IEndpointPattern := ⟨substrRegex (sl "id"), sl "id", true⟩

/-- C7 counterexample pattern file entry with pattern string "42" and
replace name "num". -/
def epPat42 : IEndpointPattern := ⟨substrRegex (sl "42"), sl "num", true⟩

/-- Embedding of `IServerErrorRecord`: an absent `lastError` is modelled
as the empty string, which every use treats identically (both are falsy
in the `record.lastError || ...` reads). -/
structure IServerErrorRecord where
  count : Nat
  statusCodes : List (Str × Nat)
  lastError : Str
deriving DecidableEq

/-- Object indexing `m[st] || 0` on an association list. -/
def lookupCount : List (Str × Nat) → Str → Nat
  | [], _ => 0
  | kv :: rest, st => if kv.1 = st then kv.2 else lookupCount rest st

/-- Embedding of the 24-hex-segment structural replacement
`path.replace(new RegExp(hex24 between slashes, global), idPlaceholder)`
from `generateServerErrorStats`: a slash followed by exactly 24 lower-case
hex digits and then a slash (consumed) or the end of the string becomes
the literal replacement; scanning resumes after the match.  Fuel
`s.length` suffices. -/
def hexStructAux : Nat → Str → Str
  | 0, s => s
  | _, [] => []
  | fuel + 1, c :: rest =>
    if c = '/' ∧ (rest.take 24).length = 24 ∧ (rest.take 24).all isHexLower = true
        ∧ (rest.drop 24 = [] ∨ (rest.drop 24).head? = some '/') then
      sl "/{id}/" ++ hexStructAux fuel ((rest.drop 24).drop 1)
    else c :: hexStructAux fuel rest

/-- The 24-hex structural replacement entry point. -/
def hexStructStr (s : Str) : Str := hexStructAux s.length s

/-- The error-grouping structure key of `generateServerErrorStats`. -/
def errorStructKey (endpoint : Str) : Str :=
  methodOf endpoint ++ (' ' :: hexStructStr (pathOf endpoint))

/-- The `errorsByStructure` grouping: entries in `Object.entries` order,
groups keyed by structure key in first-appearance order, each group's
entries in encounter order. -/
def groupByStruct (entries : List (Str × IServerErrorRecord)) :
    List (Str × List (Str × IServerErrorRecord)) :=
  entries.foldl
    (fun gs ent =>
      if gs.any (fun g => g.1 = errorStructKey ent.1) then
        gs.map (fun g =>
          if g.1 = errorStructKey ent.1 then (g.1, g.2 ++ [ent]) else g)
      else gs ++ [(errorStructKey ent.1, [ent])])
    []

/-- The histogram update
`merged.statusCodes[status] = (merged.statusCodes[status] || 0) + count`. -/
def addStatusCount (m : List (Str × Nat)) (st : Str) (n : Nat) : List (Str × Nat) :=
  if m.any (fun kv => kv.1 = st) then
    m.map (fun kv => if kv.1 = st then (st, kv.2 + n) else kv)
  else m ++ [(st, n)]

/-- One record's histogram folded into the merged histogram. -/
def mergeStatusCodes (acc : List (Str × Nat)) (sc : List (Str × Nat)) :
    List (Str × Nat) :=
  sc.foldl (fun a kv => addStatusCount a kv.1 kv.2) acc

/-- The merged record of one structural group: counts and histograms
summed over the group's records in order, the message taken from the
FIRST record (`group.records[0]?.lastError || ''`). -/
def mergeGroupRecords (records : List IServerErrorRecord) : IServerErrorRecord :=
  ⟨records.foldl (fun a r => a + r.count) 0,
   records.foldl (fun a r => mergeStatusCodes a r.statusCodes) [],
   (records.head?.map (fun r => r.lastError)).getD []⟩

/-- The group representative: the first templated endpoint when present,
else the group's first endpoint
(`group.endpoints.find(templated) || group.endpoints[0]`). -/
def groupTarget (g : List (Str × IServerErrorRecord)) : Str :=
  match (g.map (fun e => e.1)).find? isTemplatedKey with
  | some t => t
  | none => (g.head?.map (fun e => e.1)).getD []

/-- The `normalizedErrors` map of `generateServerErrorStats`: one merged
record per structural group under its representative key. -/
def mergeServerErrors (entries : List (Str × IServerErrorRecord)) :
    List (Str × IServerErrorRecord) :=
  (groupByStruct entries).map
    (fun g => (groupTarget g.2, mergeGroupRecords (g.2.map (fun e => e.2))))

/-- Embedding of `IServerErrorStats`. -/
structure IServerErrorStats where
  totalServerErrors : Nat
  statusCodeCounts : List (Str × Nat)
  errorsByEndpoint : List (Str × Nat)
deriving DecidableEq

/-- Embedding of `generateServerErrorStats`. -/
def generateServerErrorStats (allServerErrors : List (Str × IServerErrorRecord)) :
    IServerErrorStats :=
  ⟨(mergeServerErrors allServerErrors).foldl (fun a kv => a + kv.2.count) 0,
   (mergeServerErrors allServerErrors).foldl
     (fun a kv => mergeStatusCodes a kv.2.statusCodes) [],
   (mergeServerErrors allServerErrors).map (fun kv => (kv.1, kv.2.count))⟩

/-- C8 counterexample record: count 1, one 500, message "first". -/
def errRecA : IServerErrorRecord := ⟨1, [(sl "500", 1)], sl "first"⟩

/-- C8 counterexample record: count 2, two 503s, message "second". -/
def errRecB : IServerErrorRecord := ⟨2, [(sl "503", 2)], sl "second"⟩

/-- C8 counterexample error map: two 24-hex concrete endpoints sharing one
structural group, earliest message "first", latest "second". -/
def errEntriesC8 : List (Str × IServerErrorRecord) :=
  [(sl "GET /users/aaaaaaaaaaaaaaaaaaaaaaaa", errRecA),
   (sl "GET /users/bbbbbbbbbbbbbbbbbbbbbbbb", errRecB)]

/-- JavaScript spread-of-Set deduplication, keeping first occurrences. -/
def dedupKeepFirst (l : List Str) : List Str :=
  l.foldl (fun acc x => if x ∈ acc then acc else acc ++ [x]) []

/-- The `parseFloat(x.toFixed(2))` rounding to two decimal places, under
the exact-rational idealization of JavaScript float64 arithmetic (all
values reaching it here are non-negative, where toFixed rounds half away
from zero, i.e. half up). -/
def round2 (q : ℚ) : ℚ := ((Int.floor (q * 100 + 1 / 2) : ℤ) : ℚ) / 100

/-- The conditional pass through the endpoint-pattern normalizer at the
top of `generateCoverageReport`. -/
def normalizedHitsOf (hits : List Str) (patterns : List IEndpointPattern) :
    List Str :=
  if patterns.length > 0 then normalizeEndpoints hits patterns else hits

/-- `tested`: spec endpoints with an exact hit. -/
def testedExact (spec hits' : List Str) : List Str :=
  spec.filter (fun e => e ∈ hits')

/-- `specEndpointsStructures`: structure key → spec endpoint (later
declarations overwrite). -/
def specStructuresOf (spec : List Str) : List (Str × Str) :=
  spec.foldl
    (fun m e => mapSet m (structKeyMP (methodOf e) (pathOf e)) e) []

/-- One hit classified: exact spec hits are already counted; a structural
match contributes its spec endpoint to `additionalTested` (a falsy stored
endpoint is skipped); anything else is a real extra endpoint. -/
def classifyStep (spec : List Str) (structs : List (Str × Str))
    (acc : List Str × List Str) (e : Str) : List Str × List Str :=
  if e ∈ spec then acc
  else
    match structs.find?
        (fun kv => kv.1 = structKeyMP (methodOf e) (pathOf e)) with
    | some kv => if kv.2 ≠ [] then (acc.1 ++ [kv.2], acc.2) else acc
    | none => (acc.1, acc.2 ++ [e])

/-- The (additionalTested, realExtraEndpoints) pair. -/
def classifyHits (spec : List Str) (structs : List (Str × Str))
    (hits' : List Str) : List Str × List Str :=
  hits'.foldl (classifyStep spec structs) ([], [])

/-- `allTested`: exact hits plus structural hits, deduplicated. -/
def allTestedOf (spec hits : List Str) (patterns : List IEndpointPattern) :
    List Str :=
  dedupKeepFirst
    (testedExact spec (normalizedHitsOf hits patterns)
      ++ (classifyHits spec (specStructuresOf spec)
            (normalizedHitsOf hits patterns)).1)

/-- `allUntested`: spec endpoints not counted as tested. -/
def allUntestedOf (spec hits : List Str) (patterns : List IEndpointPattern) :
    List Str :=
  spec.filter (fun e => e ∉ allTestedOf spec hits patterns)

/-- The extra-endpoint structural deduplication (templated versions
preferred, else first seen). -/
def dedupExtra (extra : List Str) : List Str :=
  (extra.foldl
    (fun m e =>
      if isTemplatedKey e then
        mapSet m (structKeyMP (methodOf e) (pathOf e)) e
      else if m.any (fun kv => kv.1 = structKeyMP (methodOf e) (pathOf e)) then m
      else mapSet m (structKeyMP (methodOf e) (pathOf e)) e)
    []).map (fun kv => kv.2)

/-- Embedding of `IMethodCoverage`. -/
structure IMethodCoverage where
  total : Nat
  tested : Nat
  percentage : ℚ
deriving DecidableEq

/-- The seven standard HTTP methods initialized by
`generateMethodCoverage`, in source order. -/
def sevenMethods : List Str :=
  [sl "GET", sl "POST", sl "PUT", sl "DELETE", sl "PATCH", sl "OPTIONS", sl "HEAD"]

/-- The per-spec-endpoint counting step of `generateMethodCoverage`:
bump the endpoint's method counters when the method is one of the seven
(methods outside the map are ignored by the source's guard). -/
def mcStep (tested : List Str) (mc : List (Str × IMethodCoverage))
    (e : Str) : List (Str × IMethodCoverage) :=
  mc.map (fun kv =>
    if kv.1 = methodOf e then
      (kv.1, ⟨kv.2.total + 1,
        kv.2.tested + (if e ∈ tested then 1 else 0), kv.2.percentage⟩)
    else kv)

/-- The initial method-coverage map: the seven methods, all zero. -/
def mcInit : List (Str × IMethodCoverage) :=
  sevenMethods.map (fun m => (m, (⟨0, 0, 0⟩ : IMethodCoverage)))

/-- The percentage pass of `generateMethodCoverage` (only methods with
declared endpoints get a computed percentage). -/
def mcFinal (kv : Str × IMethodCoverage) : Str × IMethodCoverage :=
  (kv.1, ⟨kv.2.total, kv.2.tested,
    if 0 < kv.2.total then round2 ((kv.2.tested : ℚ) / kv.2.total * 100)
    else kv.2.percentage⟩)

/-- Embedding of `generateMethodCoverage`: initialize the seven methods,
count declared and tested endpoints per method, then compute percentages
for methods with declared endpoints. -/
def generateMethodCoverage (specEndpoints tested : List Str) :
    List (Str × IMethodCoverage) :=
  (specEndpoints.foldl (mcStep tested) mcInit).map mcFinal

/-- The report summary. -/
structure ICoverageReportSummary where
  totalEndpoints : Nat
  testedEndpoints : Nat
  untestedEndpoints : Nat
  coveragePercentage : ℚ
deriving DecidableEq

/-- Embedding of `ICoverageReport` (the pure fields; the timestamp and the
raw error map passthrough are I/O). -/
structure ICoverageReport where
  summary : ICoverageReportSummary
  methodCoverage : List (Str × IMethodCoverage)
  serverErrorStats : IServerErrorStats
  tested : List Str
  untested : List Str
  extraEndpoints : List Str
deriving DecidableEq

/-- Embedding of the pure computation of `generateCoverageReport` (file
loading and writing stripped; `patterns` is the loaded endpoint-pattern
file, `[]` when absent). -/
def generateCoverageReport (specEndpoints hitEndpoints : List Str)
    (allServerErrors : List (Str × IServerErrorRecord))
    (patterns : List IEndpointPattern) : ICoverageReport :=
  ⟨⟨specEndpoints.length,
    (allTestedOf specEndpoints hitEndpoints patterns).length,
    (allUntestedOf specEndpoints hitEndpoints patterns).length,
    round2 (if 0 < specEndpoints.length then
        ((allTestedOf specEndpoints hitEndpoints patterns).length : ℚ)
          / (specEndpoints.length : ℚ) * 100
      else 0)⟩,
   generateMethodCoverage specEndpoints
     (allTestedOf specEndpoints hitEndpoints patterns),
   generateServerErrorStats allServerErrors,
   allTestedOf specEndpoints hitEndpoints patterns,
   allUntestedOf specEndpoints hitEndpoints patterns,
   dedupExtra (classifyHits specEndpoints (specStructuresOf specEndpoints)
     (normalizedHitsOf hitEndpoints patterns)).2⟩

/-- The spec of the five-endpoint scenario (§8). -/
def scenarioSpec : List Str :=
  [sl "GET /users", sl "POST /users", sl "GET /users/{id}",
   sl "PUT /users/{id}", sl "DELETE /users/{id}"]

/-- The scenario's normalized hit set. -/
def scenarioHits : List Str := [sl "GET /users", sl "GET /users/{id}"]

lemma mem_setAdd {S : List Str} {k x : Str} (h : x ∈ setAdd S k) :
    x ∈ S ∨ x = k := by
  unfold setAdd at h
  by_cases hk : k ∈ S
  · simp [hk] at h; exact Or.inl h
  · simp [hk] at h
    rcases h with h | h
    · exact Or.inl h
    · exact Or.inr h

lemma hitInsert_inv {S : List Str} (hS : HitInv S) (k : Str) :
    HitInv (hitInsert S k) := by
  intro t ht c hc htpl hcon
  unfold hitInsert at ht hc
  by_cases hk : isTemplatedKey k = true
  · simp only [hk, if_true] at ht hc
    have ht' := List.mem_filter.mp ht
    have hc' := List.mem_filter.mp hc
    have hcK : endpointMatchesTemplate c k = false := by
      rcases Bool.or_eq_true _ _ |>.mp hc'.2 with h | h
      · rw [hcon] at h; exact absurd h (by simp)
      · simpa using h
    rcases mem_setAdd ht'.1 with htS | htk
    · rcases mem_setAdd hc'.1 with hcS | hck
      · exact hS t htS c hcS htpl hcon
      · subst hck; rw [hk] at hcon; exact absurd hcon (by simp)
    · subst htk; exact hcK
  · have hk' : isTemplatedKey k = false := by simpa using hk
    by_cases hany : S.any (fun e => isTemplatedKey e && endpointMatchesTemplate k e) = true
    · simp only [hk', hany] at ht hc
      simp only [Bool.false_eq_true, if_false, if_true] at ht hc
      exact hS t ht c hc htpl hcon
    · have hany' : S.any (fun e => isTemplatedKey e && endpointMatchesTemplate k e) = false := by
        simpa using hany
      simp only [hk', hany', Bool.false_eq_true, if_false] at ht hc
      rcases mem_setAdd ht with htS | htk
      · rcases mem_setAdd hc with hcS | hck
        · exact hS t htS c hcS htpl hcon
        · subst hck
          have h2 := List.any_eq_false.mp hany' t htS
          simp only [Bool.and_eq_true, not_and] at h2
          simpa using h2 htpl
      · subst htk; rw [hk'] at htpl; exact absurd htpl (by simp)

lemma hitFoldAux_inv (keys : List Str) :
    ∀ S, HitInv S → HitInv (keys.foldl hitInsert S) := by
  induction keys with
  | nil => intro S h; simpa using h
  | cons k ks ih =>
    intro S h
    exact ih (hitInsert S k) (hitInsert_inv h k)

/-- C2.  After any sequence of observation insertions into the hit-endpoint
set, the set never contains both a templated key and a concrete key of the
same method that structurally match each other; in particular, inserting
"GET /users/{id}" then "GET /users/42" leaves the set equal to
{"GET /users/{id}"}, and the reverse insertion order yields the same final
set. -/
theorem hit_set_dedup_invariant :
    (∀ (keys : List Str) (t c : Str),
        t ∈ hitFold keys → c ∈ hitFold keys →
        isTemplatedKey t = true → isTemplatedKey c = false →
        endpointMatchesTemplate c t = false)
    ∧ hitFold [sl "GET /users/{id}", sl "GET /users/42"] = [sl "GET /users/{id}"]
    ∧ hitFold [sl "GET /users/42", sl "GET /users/{id}"] = [sl "GET /users/{id}"] := by
  refine ⟨?_, by decide, by decide⟩
  intro keys t c ht hc htpl hcon
  exact hitFoldAux_inv keys [] (by intro t ht; simp at ht) t ht c hc htpl hcon

/-- Witness for C2: a two-method run leaves a templated and a concrete key
coexisting, and the invariant theorem applies to that concrete state. -/
theorem hit_set_dedup_invariant_witness :
    endpointMatchesTemplate (sl "GET /posts/7") (sl "GET /users/{id}") = false :=
  hit_set_dedup_invariant.1 [sl "GET /users/{id}", sl "GET /posts/7"]
    (sl "GET /users/{id}") (sl "GET /posts/7")
    (by decide) (by decide) (by decide) (by decide)

lemma zip_self_structmatch (l : List Str) :
    (l.zip l).all (fun q => if isParamSeg q.1 then true else q.1 == q.2) = true := by
  induction l with
  | nil => rfl
  | cons a t ih =>
    simp only [List.zip_cons_cons, List.all_cons, ih, Bool.and_true]
    by_cases h : isParamSeg a = true
    · simp [h]
    · simp [h]

lemma pathStructMatches_refl (p : Str) : pathStructMatches p p = true := by
  unfold pathStructMatches
  simp only [beq_self_eq_true, Bool.true_and]
  exact zip_self_structmatch _

lemma ensureSlash_of_slash {p : Str} (h : p.head? = some '/') :
    ensureSlash p = p := by
  unfold ensureSlash
  simp [h]

/-- C1 counterexample.  The spec declares "/users/{id}" and then "/{a}/{b}";
the concrete path "/users/42" structurally matches the declared template
"/{a}/{b}" (two segments, no literal segments, placeholders accept
anything), yet `normalizePath` returns "/users/{id}", the first declared
match — so the claim's universally quantified template `t` is not always
returned. -/
theorem normalizePath_returns_first_struct_match_counterexample :
    pathStructMatches (sl "/users/42") (sl "/{a}/{b}") = true
    ∧ (sl "/{a}/{b}") ∈ docTwoTemplates.paths.map (fun kv => kv.1)
    ∧ isTemplatedKey (sl "/users/42") = false
    ∧ normalizePath (sl "/users/42") (some docTwoTemplates) none = sl "/users/{id}"
    ∧ sl "/users/{id}" ≠ sl "/{a}/{b}" := by
  refine ⟨by decide, by decide, by decide, by decide, by decide⟩

/-- C1 amended.  For a non-empty slash-prefixed concrete path `p`, if `t`
is the UNIQUE declared (truthy) spec path structurally matching `p`, then
`normalizePath` returns `t`, whatever the pattern list — the amendment
restricts the claim to a unique (equivalently, first) structural match. -/
theorem normalizePath_struct_match_unique (doc : IOpenAPIDocument)
    (cps : Option (List IPathPattern)) (p t : Str)
    (hp : p ≠ []) (hslash : p.head? = some '/')
    (ht : ∃ item, (t, some item) ∈ doc.paths)
    (hmatch : pathStructMatches p t = true)
    (huniq : ∀ t', (∃ item, (t', some item) ∈ doc.paths) →
      pathStructMatches p t' = true → t' = t) :
    normalizePath p (some doc) cps = t := by
  unfold normalizePath
  rw [if_neg hp, ensureSlash_of_slash hslash]
  by_cases hkey : specHasKey (some doc) p = true
  · rw [if_pos hkey]
    simp only [specHasKey, specLookup] at hkey
    rcases hfind : doc.paths.find? (fun kv => kv.1 == p) with _ | kv
    · rw [hfind] at hkey; simp at hkey
    · rw [hfind] at hkey
      have hk1 : kv.1 = p := by
        have := List.find?_some hfind
        simpa using this
      have hmem : kv ∈ doc.paths := List.mem_of_find?_eq_some hfind
      rcases hkv2 : kv.2 with _ | item
      · simp [hkv2] at hkey
      · have : (p, some item) ∈ doc.paths := by
          rw [← hk1, ← hkv2]; exact hmem
        exact huniq p ⟨item, this⟩ (pathStructMatches_refl p)
  · rw [if_neg hkey]
    have hex : ∃ kv ∈ doc.paths, (kv.2.isSome && pathStructMatches p kv.1) = true := by
      rcases ht with ⟨item, hmem⟩
      exact ⟨(t, some item), hmem, by simp [hmatch]⟩
    rcases hfind : doc.paths.find? (fun kv => kv.2.isSome && pathStructMatches p kv.1)
      with _ | kv0
    · exact absurd (List.find?_isSome.mpr hex) (by simp [hfind])
    · have hpred := List.find?_some hfind
      have hmem0 := List.mem_of_find?_eq_some hfind
      simp only [Bool.and_eq_true, Option.isSome_iff_exists] at hpred
      rcases hpred with ⟨⟨item0, hitem0⟩, hmatch0⟩
      have ht0 : kv0.1 = t := by
        refine huniq kv0.1 ⟨item0, ?_⟩ hmatch0
        rw [← hitem0]; exact hmem0
      simp only [structMatchDoc]
      rw [hfind]
      simpa using ht0

/-- Witness for the amended C1: with the single declared template
"/users/{id}", normalizing "/users/42" yields it. -/
theorem normalizePath_struct_match_unique_witness :
    normalizePath (sl "/users/42") (some docOneTemplate) none = sl "/users/{id}" := by
  refine normalizePath_struct_match_unique docOneTemplate none _ _
    (by decide) (by decide) ⟨emptyPathItem, by decide⟩ (by decide) ?_
  intro t' ⟨item, hmem⟩ _
  have : (t', some item) ∈ [(sl "/users/{id}", some emptyPathItem)] := hmem
  simp at this
  exact this.1

/-- C3 counterexample.  `normalizePath('')` returns `''`, which is not
slash-prefixed, refuting the claim for the empty input it explicitly
includes. -/
theorem normalizePath_empty_input_counterexample :
    normalizePath [] none none = [] ∧ (([] : Str).head? = some '/') = False := by
  refine ⟨by decide, by decide⟩

lemma mem_insDesc {p x : IPathPattern} {l : List IPathPattern} :
    x ∈ insDesc p l → x = p ∨ x ∈ l := by
  induction l with
  | nil => intro h; simpa [insDesc] using h
  | cons q qs ih =>
    intro h
    unfold insDesc at h
    by_cases hlt : priorityKey p < priorityKey q
    · rw [if_pos hlt] at h
      rcases List.mem_cons.mp h with h | h
      · exact Or.inr (by simp [h])
      · rcases ih h with h | h
        · exact Or.inl h
        · exact Or.inr (List.mem_cons_of_mem _ h)
    · rw [if_neg hlt] at h
      rcases List.mem_cons.mp h with h | h
      · exact Or.inl h
      · exact Or.inr h

lemma mem_sortPatterns {x : IPathPattern} {ps : List IPathPattern} :
    x ∈ sortPatterns ps → x ∈ ps := by
  induction ps with
  | nil => intro h; simp [sortPatterns] at h
  | cons p l ih =>
    intro h
    have h' : x ∈ insDesc p (sortPatterns l) := h
    rcases mem_insDesc h' with h'' | h''
    · simp [h'']
    · exact List.mem_cons_of_mem _ (ih h'')

lemma firstMatch_mem {path : Str} {l : List IPathPattern} {p : IPathPattern} :
    firstMatch path l = some p → p ∈ l := by
  induction l with
  | nil => intro h; simp [firstMatch] at h
  | cons q qs ih =>
    intro h
    unfold firstMatch at h
    by_cases hq : (patternUsable q && q.pattern.test path) = true
    · rw [if_pos hq] at h
      simp at h
      simp [h]
    · rw [if_neg hq] at h
      exact List.mem_cons_of_mem _ (ih h)

/-- C3 amended.  `normalizePath` is total by construction; its result for a
non-empty input is the slash-normalized input (which is slash-prefixed),
a declared truthy spec key, or the substitution produced by a pattern in
the supplied list; the empty input yields the empty string (the
counterexample forbids more). -/
theorem normalizePath_total_characterization (p : Str)
    (spec? : Option IOpenAPIDocument) (cps : Option (List IPathPattern))
    (hp : p ≠ []) :
    (ensureSlash p).head? = some '/'
    ∧ (normalizePath p spec? cps = ensureSlash p
       ∨ (∃ kv ∈ docPathsOf spec?, kv.2.isSome = true
            ∧ normalizePath p spec? cps = kv.1)
       ∨ (∃ pat ∈ patsOf cps,
            normalizePath p spec? cps = applyPattern pat (ensureSlash p))) := by
  constructor
  · unfold ensureSlash
    by_cases hh : p.head? = some '/'
    · simp [hh]
    · simp [hh]
  · unfold normalizePath
    rw [if_neg hp]
    by_cases hkey : specHasKey spec? (ensureSlash p) = true
    · rw [if_pos hkey]; exact Or.inl rfl
    · rw [if_neg hkey]
      rcases hsm : structMatchDoc spec? (ensureSlash p) with _ | k
      · rcases cps with _ | ps
        · exact Or.inl rfl
        · by_cases hlen : ps.length > 0
          · rcases hfm : firstMatch (ensureSlash p) (sortPatterns ps) with _ | pat
            · refine Or.inl ?_
              show (if ps.length > 0 then
                  (tryPatterns ps (ensureSlash p)).getD (ensureSlash p)
                else ensureSlash p) = ensureSlash p
              rw [if_pos hlen]
              unfold tryPatterns
              rw [hfm]; rfl
            · refine Or.inr (Or.inr ⟨pat, mem_sortPatterns (firstMatch_mem hfm), ?_⟩)
              show (if ps.length > 0 then
                  (tryPatterns ps (ensureSlash p)).getD (ensureSlash p)
                else ensureSlash p) = applyPattern pat (ensureSlash p)
              rw [if_pos hlen]
              unfold tryPatterns
              rw [hfm]; rfl
          · refine Or.inl ?_
            show (if ps.length > 0 then
                (tryPatterns ps (ensureSlash p)).getD (ensureSlash p)
              else ensureSlash p) = ensureSlash p
            rw [if_neg hlen]
      · refine Or.inr (Or.inl ?_)
        rcases spec? with _ | doc
        · simp [structMatchDoc] at hsm
        · simp only [structMatchDoc] at hsm
          rcases hfind : doc.paths.find?
              (fun kv => kv.2.isSome && pathStructMatches (ensureSlash p) kv.1) with _ | kv
          · rw [hfind] at hsm; simp at hsm
          · rw [hfind] at hsm
            simp at hsm
            have hpred := List.find?_some hfind
            have hmem := List.mem_of_find?_eq_some hfind
            simp only [Bool.and_eq_true] at hpred
            refine ⟨kv, hmem, hpred.1, ?_⟩
            show k = kv.1
            simp [hsm]

/-- Witness for the amended C3 at a concrete fall-through input. -/
theorem normalizePath_total_characterization_witness :
    (ensureSlash (sl "/nowhere")).head? = some '/'
    ∧ (normalizePath (sl "/nowhere") none none = ensureSlash (sl "/nowhere")
       ∨ (∃ kv ∈ docPathsOf none, kv.2.isSome = true
            ∧ normalizePath (sl "/nowhere") none none = kv.1)
       ∨ (∃ pat ∈ patsOf none,
            normalizePath (sl "/nowhere") none none
              = applyPattern pat (ensureSlash (sl "/nowhere")))) :=
  normalizePath_total_characterization (sl "/nowhere") none none (by decide)

lemma self_mem_insDesc (p : IPathPattern) (l : List IPathPattern) :
    p ∈ insDesc p l := by
  induction l with
  | nil => simp [insDesc]
  | cons q qs ih =>
    unfold insDesc
    by_cases hlt : priorityKey p < priorityKey q
    · rw [if_pos hlt]
      exact List.mem_cons_of_mem _ ih
    · rw [if_neg hlt]
      exact List.mem_cons_self _ _

lemma mem_insDesc_of_mem {x : IPathPattern} (p : IPathPattern)
    {l : List IPathPattern} (h : x ∈ l) : x ∈ insDesc p l := by
  induction l with
  | nil => simp at h
  | cons q qs ih =>
    unfold insDesc
    by_cases hlt : priorityKey p < priorityKey q
    · rw [if_pos hlt]
      rcases List.mem_cons.mp h with h2 | h2
      · exact List.mem_cons.mpr (Or.inl h2)
      · exact List.mem_cons_of_mem _ (ih h2)
    · rw [if_neg hlt]
      exact List.mem_cons_of_mem _ h

lemma mem_sortPatterns_of_mem {x : IPathPattern} {ps : List IPathPattern} :
    x ∈ ps → x ∈ sortPatterns ps := by
  induction ps with
  | nil => intro h; simp at h
  | cons p l ih =>
    intro h
    show x ∈ insDesc p (sortPatterns l)
    rcases List.mem_cons.mp h with h | h
    · subst h
      exact self_mem_insDesc x (sortPatterns l)
    · exact mem_insDesc_of_mem p (ih h)

lemma insDesc_split (p : IPathPattern) (l : List IPathPattern) :
    ∃ l₁ l₂, insDesc p l = l₁ ++ p :: l₂ ∧ l = l₁ ++ l₂ ∧
      ∀ q ∈ l₁, priorityKey p < priorityKey q := by
  induction l with
  | nil => exact ⟨[], [], rfl, rfl, by intro q hq; simp at hq⟩
  | cons q qs ih =>
    by_cases hlt : priorityKey p < priorityKey q
    · rcases ih with ⟨l₁, l₂, h1, h2, h3⟩
      refine ⟨q :: l₁, l₂, ?_, ?_, ?_⟩
      · show insDesc p (q :: qs) = q :: l₁ ++ p :: l₂
        unfold insDesc
        rw [if_pos hlt, h1]
        rfl
      · simp [h2]
      · intro r hr
        rcases List.mem_cons.mp hr with h | h
        · subst h; exact hlt
        · exact h3 r h
    · refine ⟨[], q :: qs, ?_, rfl, by intro r hr; simp at hr⟩
      show insDesc p (q :: qs) = p :: q :: qs
      unfold insDesc
      rw [if_neg hlt]

lemma sortPatterns_filter_eq (k : Int) (ps : List IPathPattern) :
    (sortPatterns ps).filter (fun p => priorityKey p == k)
      = ps.filter (fun p => priorityKey p == k) := by
  induction ps with
  | nil => rfl
  | cons p l ih =>
    show (insDesc p (sortPatterns l)).filter _ = _
    rcases insDesc_split p (sortPatterns l) with ⟨l₁, l₂, h1, h2, h3⟩
    rw [h1, List.filter_append, List.filter_cons]
    by_cases hk : priorityKey p = k
    · have hl₁ : l₁.filter (fun p => priorityKey p == k) = [] := by
        rw [List.filter_eq_nil_iff]
        intro q hq
        have := h3 q hq
        simp only [beq_iff_eq]
        omega
      have : (sortPatterns l).filter (fun p => priorityKey p == k)
          = l₁.filter (fun p => priorityKey p == k)
            ++ l₂.filter (fun p => priorityKey p == k) := by
        rw [h2, List.filter_append]
      simp only [hk, beq_self_eq_true, if_true, hl₁, List.nil_append]
      rw [List.filter_cons]
      simp only [hk, beq_self_eq_true, if_true]
      rw [← List.nil_append (l₂.filter _), ← hl₁, ← List.filter_append, ← h2, ih]
    · have hbk : (priorityKey p == k) = false := by simp [hk]
      simp only [hbk, Bool.false_eq_true, if_false]
      rw [List.filter_cons, hbk]
      simp only [Bool.false_eq_true, if_false]
      rw [← List.filter_append, ← h2, ih]

lemma insDesc_pairwise {p : IPathPattern} {l : List IPathPattern}
    (h : List.Pairwise (fun a b => priorityKey b ≤ priorityKey a) l) :
    List.Pairwise (fun a b => priorityKey b ≤ priorityKey a) (insDesc p l) := by
  induction l with
  | nil => simp [insDesc]
  | cons q qs ih =>
    rcases List.pairwise_cons.mp h with ⟨hq, hqs⟩
    unfold insDesc
    by_cases hlt : priorityKey p < priorityKey q
    · rw [if_pos hlt]
      refine List.pairwise_cons.mpr ⟨?_, ih hqs⟩
      intro x hx
      rcases mem_insDesc hx with h2 | h2
      · subst h2; omega
      · exact hq x h2
    · rw [if_neg hlt]
      refine List.pairwise_cons.mpr ⟨?_, h⟩
      intro x hx
      rcases List.mem_cons.mp hx with h2 | h2
      · subst h2; omega
      · have := hq x h2; omega

lemma sortPatterns_pairwise (ps : List IPathPattern) :
    List.Pairwise (fun a b => priorityKey b ≤ priorityKey a) (sortPatterns ps) := by
  induction ps with
  | nil => simp [sortPatterns]
  | cons p l ih => exact insDesc_pairwise ih

lemma firstMatch_eq_find? (path : Str) (l : List IPathPattern) :
    firstMatch path l = l.find? (patAccepts path) := by
  induction l with
  | nil => rfl
  | cons p ps ih =>
    unfold firstMatch
    by_cases hp : (patternUsable p && p.pattern.test path) = true
    · rw [if_pos hp]
      have hfa : patAccepts path p = true := hp
      simp only [List.find?, hfa]
    · rw [if_neg hp]
      have hfa : patAccepts path p = false := Bool.eq_false_iff.mpr hp
      simp only [List.find?, hfa]
      exact ih

lemma find?_filter_comm {α : Type} (l : List α) (q pred : α → Bool) :
    (l.filter q).find? pred = l.find? (fun a => q a && pred a) := by
  induction l with
  | nil => rfl
  | cons a l ih =>
    rw [List.filter_cons]
    by_cases hq : q a = true
    · rw [if_pos hq]
      by_cases hp : pred a = true
      · simp only [List.find?, hp, hq, Bool.and_self]
      · have hp' : pred a = false := Bool.eq_false_iff.mpr hp
        simp only [List.find?, hp', hq, Bool.and_false, Bool.true_and]
        exact ih
    · have hq' : q a = false := Bool.eq_false_iff.mpr hq
      simp only [hq', Bool.false_eq_true, if_false]
      simp only [List.find?, hq', Bool.false_and]
      exact ih

lemma firstMatch_split {path : Str} {l : List IPathPattern} {w : IPathPattern}
    (h : firstMatch path l = some w) :
    ∃ l₁ l₂, l = l₁ ++ w :: l₂ ∧ ∀ x ∈ l₁, patAccepts path x = false := by
  induction l with
  | nil => simp [firstMatch] at h
  | cons p ps ih =>
    unfold firstMatch at h
    by_cases hp : (patternUsable p && p.pattern.test path) = true
    · rw [if_pos hp] at h
      have : p = w := by simpa using h
      subst this
      exact ⟨[], ps, rfl, by intro x hx; simp at hx⟩
    · rw [if_neg hp] at h
      rcases ih h with ⟨l₁, l₂, h1, h2⟩
      refine ⟨p :: l₁, l₂, by rw [h1]; rfl, ?_⟩
      intro x hx
      rcases List.mem_cons.mp hx with h3 | h3
      · rw [h3]
        exact Bool.eq_false_iff.mpr hp
      · exact h2 x h3

/-- C4 counterexample.  A matching custom pattern (priority 100, regex
`/42/`, template "{cid}") and a matching spec-derived pattern (priority 50)
compete for "/users/42"; the custom pattern wins, but the returned value is
its substitution output "/users/{cid}" — not its template "{cid}", as the
claim states. -/
theorem normalizePath_custom_template_counterexample :
    priorityKey patCustom42 = 100
    ∧ priorityKey patSpecUsers = 50
    ∧ patCustom42.pattern.test (sl "/users/42") = true
    ∧ patSpecUsers.pattern.test (sl "/users/42") = true
    ∧ normalizePath (sl "/users/42") none (some [patCustom42, patSpecUsers])
        = sl "/users/{cid}"
    ∧ sl "/users/{cid}" ≠ patCustom42.template := by
  refine ⟨rfl, rfl, by decide, by decide, by decide, by decide⟩

/-- C4 amended.  Pattern resolution sorts priority-descending (1), keeps
equal-priority entries in declaration order (2), and the first matching
pattern wins; when a custom (priority-100) pattern matches and no priority
exceeds 100, the winner is the first declared matching custom pattern (3);
a pattern of priority below 50 — in particular a learned priority-30
pattern — never wins while any priority-≥50 pattern matches (4); and the
value `normalizePath` returns is the winner's substitution output applied
to the slash-normalized path, not its bare template (5). -/
theorem normalizePath_priority_order :
    (∀ ps : List IPathPattern,
        List.Pairwise (fun a b => priorityKey b ≤ priorityKey a) (sortPatterns ps))
    ∧ (∀ (ps : List IPathPattern) (k : Int),
        (sortPatterns ps).filter (fun p => priorityKey p == k)
          = ps.filter (fun p => priorityKey p == k))
    ∧ (∀ (ps : List IPathPattern) (path : Str),
        (∀ p ∈ ps, priorityKey p ≤ 100) →
        (∃ pc ∈ ps, priorityKey pc = 100 ∧ patAccepts path pc = true) →
        firstMatch path (sortPatterns ps)
          = ps.find? (fun p => (priorityKey p == 100) && patAccepts path p))
    ∧ (∀ (ps : List IPathPattern) (path : Str) (q w : IPathPattern),
        q ∈ ps → patAccepts path q = true → 50 ≤ priorityKey q →
        firstMatch path (sortPatterns ps) = some w → 50 ≤ priorityKey w)
    ∧ (∀ (p : Str) (ps : List IPathPattern) (w : IPathPattern),
        p ≠ [] → firstMatch (ensureSlash p) (sortPatterns ps) = some w →
        normalizePath p none (some ps) = applyPattern w (ensureSlash p)) := by
  refine ⟨sortPatterns_pairwise, fun ps k => sortPatterns_filter_eq k ps, ?_, ?_, ?_⟩
  · intro ps path hbound hex
    rcases hex with ⟨pc, hpc_mem, hpc100, hpc_acc⟩
    have hpc_sorted : pc ∈ sortPatterns ps := mem_sortPatterns_of_mem hpc_mem
    have hsome : ((sortPatterns ps).find? (patAccepts path)).isSome :=
      List.find?_isSome.mpr ⟨pc, hpc_sorted, hpc_acc⟩
    rcases hw : (sortPatterns ps).find? (patAccepts path) with _ | w
    · rw [hw] at hsome; simp at hsome
    · have hw_acc : patAccepts path w = true := List.find?_some hw
      have hw_mem : w ∈ ps := mem_sortPatterns (List.mem_of_find?_eq_some hw)
      have hfm : firstMatch path (sortPatterns ps) = some w := by
        rw [firstMatch_eq_find?, hw]
      rcases firstMatch_split hfm with ⟨l₁, l₂, hsplit, hfail⟩
      have hpc_not : pc ∉ l₁ := by
        intro hmem
        rw [hfail pc hmem] at hpc_acc
        exact absurd hpc_acc (by simp)
      have hpc_loc : pc = w ∨ pc ∈ l₂ := by
        have hmem2 : pc ∈ l₁ ++ w :: l₂ := hsplit ▸ hpc_sorted
        rcases List.mem_append.mp hmem2 with h | h
        · exact absurd h hpc_not
        · rcases List.mem_cons.mp h with h | h
          · exact Or.inl h
          · exact Or.inr h
      have hw100 : priorityKey w = 100 := by
        have hple : priorityKey w ≤ 100 := hbound w hw_mem
        rcases hpc_loc with h | h
        · rw [← h]; exact hpc100
        · have hpw := sortPatterns_pairwise ps
          rw [hsplit] at hpw
          have hparts := List.pairwise_append.mp hpw
          have hwl₂ := (List.pairwise_cons.mp hparts.2.1).1
          have := hwl₂ pc h
          omega
      have hrhs : ps.find? (fun p => (priorityKey p == 100) && patAccepts path p)
          = some w := by
        rw [← find?_filter_comm ps (fun p => priorityKey p == 100) (patAccepts path)]
        rw [← sortPatterns_filter_eq 100 ps]
        rw [hsplit, List.filter_append, List.filter_cons]
        have hw100b : (priorityKey w == (100 : Int)) = true := by simp [hw100]
        rw [hw100b]
        simp only [if_true]
        rw [List.find?_append]
        have hfl₁ : ((l₁.filter (fun p => priorityKey p == 100)).find?
            (patAccepts path)) = none := by
          rw [List.find?_eq_none]
          intro x hx
          have hx' : x ∈ l₁ := List.mem_of_mem_filter hx
          simp [hfail x hx']
        rw [hfl₁]
        simp only [Option.none_or]
        simp only [List.find?, hw_acc]
      rw [hfm, hrhs]
  · intro ps path q w hq_mem hq_acc hq50 hfm
    rcases firstMatch_split hfm with ⟨l₁, l₂, hsplit, hfail⟩
    have hq_sorted : q ∈ sortPatterns ps := mem_sortPatterns_of_mem hq_mem
    have hq_not : q ∉ l₁ := by
      intro hmem
      rw [hfail q hmem] at hq_acc
      exact absurd hq_acc (by simp)
    have hloc : q = w ∨ q ∈ l₂ := by
      have hmem2 : q ∈ l₁ ++ w :: l₂ := hsplit ▸ hq_sorted
      rcases List.mem_append.mp hmem2 with h | h
      · exact absurd h hq_not
      · rcases List.mem_cons.mp h with h | h
        · exact Or.inl h
        · exact Or.inr h
    rcases hloc with h | h
    · rw [← h]; exact hq50
    · have hpw := sortPatterns_pairwise ps
      rw [hsplit] at hpw
      have hparts := List.pairwise_append.mp hpw
      have hwl₂ := (List.pairwise_cons.mp hparts.2.1).1
      have := hwl₂ q h
      omega
  · intro p ps w hp hfm
    unfold normalizePath
    rw [if_neg hp]
    rw [if_neg (show ¬ specHasKey none (ensureSlash p) = true by simp [specHasKey])]
    have hps : ps.length > 0 :=
      List.length_pos.mpr (List.ne_nil_of_mem (mem_sortPatterns (firstMatch_mem hfm)))
    show (if ps.length > 0 then
        (tryPatterns ps (ensureSlash p)).getD (ensureSlash p)
      else ensureSlash p) = applyPattern w (ensureSlash p)
    rw [if_pos hps]
    unfold tryPatterns
    rw [hfm]
    rfl

/-- Witness for the amended C4: on "/users/42" with the concrete custom and
spec-derived patterns, the resolution winner is the first declared matching
priority-100 pattern. -/
theorem normalizePath_priority_order_witness :
    firstMatch (sl "/users/42") (sortPatterns [patCustom42, patSpecUsers])
      = [patCustom42, patSpecUsers].find?
          (fun p => (priorityKey p == 100) && patAccepts (sl "/users/42") p) :=
  normalizePath_priority_order.2.2.1 [patCustom42, patSpecUsers] (sl "/users/42")
    (by decide) ⟨patCustom42, List.mem_cons_self _ _, rfl, by decide⟩

lemma ensureSlash_head (p : Str) : (ensureSlash p).head? = some '/' := by
  unfold ensureSlash
  by_cases hh : p.head? = some '/'
  · simp [hh]
  · simp [hh]

lemma ensureSlash_ne_nil (p : Str) : ensureSlash p ≠ [] := by
  intro h
  have h2 := ensureSlash_head p
  rw [h] at h2
  simp at h2

lemma normalizePath_eval (p : Str) (spec? : Option IOpenAPIDocument)
    (cps : Option (List IPathPattern)) (hp : p ≠ []) :
    normalizePath p spec? cps =
      (if specHasKey spec? (ensureSlash p) = true then ensureSlash p
       else
         match structMatchDoc spec? (ensureSlash p) with
         | some k => k
         | none =>
           match cps with
           | some ps =>
             if ps.length > 0 then
               (tryPatterns ps (ensureSlash p)).getD (ensureSlash p)
             else ensureSlash p
           | none => ensureSlash p) := by
  unfold normalizePath
  rw [if_neg hp]

lemma nodup_assoc_value {l : List (Str × Option IPathItem)}
    (h : (l.map (fun kv => kv.1)).Nodup) {k : Str} {v v' : Option IPathItem}
    (h1 : (k, v) ∈ l) (h2 : (k, v') ∈ l) : v = v' := by
  induction l with
  | nil => simp at h1
  | cons a l ih =>
    simp only [List.map_cons, List.nodup_cons] at h
    rcases List.mem_cons.mp h1 with e1 | m1
    · rcases List.mem_cons.mp h2 with e2 | m2
      · rw [← e1] at e2
        exact (Prod.mk.injEq _ _ _ _ |>.mp e2.symm).2
      · exfalso
        apply h.1
        rw [← e1]
        exact List.mem_map.mpr ⟨(k, v'), m2, rfl⟩
    · rcases List.mem_cons.mp h2 with e2 | m2
      · exfalso
        apply h.1
        rw [← e2]
        exact List.mem_map.mpr ⟨(k, v), m1, rfl⟩
      · exact ih h.2 m1 m2

lemma specHasKey_of_mem_nodup {doc : IOpenAPIDocument} {k : Str}
    {item : IPathItem} (hmem : (k, some item) ∈ doc.paths)
    (hnd : (doc.paths.map (fun kv => kv.1)).Nodup) :
    specHasKey (some doc) k = true := by
  have hsome : (doc.paths.find? (fun kv => kv.1 == k)).isSome :=
    List.find?_isSome.mpr ⟨(k, some item), hmem, by simp⟩
  rcases hfind : doc.paths.find? (fun kv => kv.1 == k) with _ | kv
  · rw [hfind] at hsome; simp at hsome
  · have hk : kv.1 = k := by simpa using List.find?_some hfind
    have hmem2 : kv ∈ doc.paths := List.mem_of_find?_eq_some hfind
    have hv : kv.2 = some item := by
      have hpair : (k, kv.2) ∈ doc.paths := by
        rw [← hk]
        exact hmem2
      exact nodup_assoc_value hnd hpair hmem
    simp [specHasKey, specLookup, hfind, hv]

/-- C5 counterexample.  With custom patterns `/^\/a$/ → '/b'` and
`/^\/b$/ → '/c'`, normalize("/a") = "/b" but normalize(normalize("/a")) =
normalize("/b") = "/c": chained substitutions break idempotence, so the
claim quantified over every pattern list fails. -/
theorem normalizePath_idempotence_counterexample :
    normalizePath (sl "/a") none (some [patChainA, patChainB]) = sl "/b"
    ∧ normalizePath (normalizePath (sl "/a") none (some [patChainA, patChainB]))
        none (some [patChainA, patChainB]) = sl "/c"
    ∧ sl "/c" ≠ sl "/b" := by
  refine ⟨by decide, by decide, by decide⟩

/-- C5 amended.  `normalizePath` is idempotent whenever the pattern list is
empty or absent and the spec is well-formed (unique, slash-prefixed path
keys) — the counterexample shows pattern substitution chains can defeat
idempotence, so the claim holds only for spec-driven resolution. -/
lemma normalizePath_cps_nil (p : Str) (spec? : Option IOpenAPIDocument)
    (cps : Option (List IPathPattern)) (hcps : patsOf cps = []) :
    normalizePath p spec? cps = normalizePath p spec? none := by
  rcases cps with _ | ps
  · rfl
  · have hps : ps = [] := by simpa [patsOf] using hcps
    subst hps
    by_cases hp : p = []
    · subst hp; rfl
    · rw [normalizePath_eval p spec? (some []) hp,
        normalizePath_eval p spec? none hp]
      rfl

theorem normalizePath_idempotent_no_patterns (p : Str)
    (spec? : Option IOpenAPIDocument) (cps : Option (List IPathPattern))
    (hcps : patsOf cps = [])
    (hkeys : ∀ kv ∈ docPathsOf spec?, kv.1.head? = some '/')
    (hnodup : ((docPathsOf spec?).map (fun kv => kv.1)).Nodup) :
    normalizePath (normalizePath p spec? cps) spec? cps
      = normalizePath p spec? cps := by
  rw [normalizePath_cps_nil p spec? cps hcps]
  rw [normalizePath_cps_nil _ spec? cps hcps]
  by_cases hp : p = []
  · subst hp
    have h0 : normalizePath [] spec? none = [] := by
      unfold normalizePath
      rw [if_pos rfl]
    rw [h0, h0]
  · rw [normalizePath_eval p spec? none hp]
    by_cases hkey : specHasKey spec? (ensureSlash p) = true
    · rw [if_pos hkey]
      rw [normalizePath_eval _ spec? none (ensureSlash_ne_nil p),
        ensureSlash_of_slash (ensureSlash_head p)]
      rw [if_pos hkey]
    · rw [if_neg hkey]
      rcases hsm : structMatchDoc spec? (ensureSlash p) with _ | k
      · show normalizePath (ensureSlash p) spec? none = ensureSlash p
        rw [normalizePath_eval _ spec? none (ensureSlash_ne_nil p),
          ensureSlash_of_slash (ensureSlash_head p)]
        rw [if_neg hkey, hsm]
      · rcases spec? with _ | doc
        · simp [structMatchDoc] at hsm
        · have hk_decl : ∃ item, (k, some item) ∈ doc.paths := by
            simp only [structMatchDoc] at hsm
            rcases hfind : doc.paths.find?
                (fun kv => kv.2.isSome && pathStructMatches (ensureSlash p) kv.1)
                with _ | kv
            · rw [hfind] at hsm; simp at hsm
            · rw [hfind] at hsm
              simp at hsm
              have hpred := List.find?_some hfind
              have hmem := List.mem_of_find?_eq_some hfind
              simp only [Bool.and_eq_true, Option.isSome_iff_exists] at hpred
              rcases hpred with ⟨⟨item, hitem⟩, _⟩
              refine ⟨item, ?_⟩
              rw [← hsm, ← hitem]
              exact hmem
          rcases hk_decl with ⟨item, hk_mem⟩
          have hk_slash : k.head? = some '/' := by
            have := hkeys (k, some item) (by simpa [docPathsOf] using hk_mem)
            simpa using this
          have hk_ne : k ≠ [] := by
            intro h
            rw [h] at hk_slash
            simp at hk_slash
          show normalizePath k (some doc) none = k
          rw [normalizePath_eval k (some doc) none hk_ne,
            ensureSlash_of_slash hk_slash]
          rw [if_pos (specHasKey_of_mem_nodup hk_mem
            (by simpa [docPathsOf] using hnodup))]

/-- Witness for the amended C5 at a concrete input with no patterns. -/
theorem normalizePath_idempotent_no_patterns_witness :
    normalizePath (normalizePath (sl "/x") none none) none none
      = normalizePath (sl "/x") none none :=
  normalizePath_idempotent_no_patterns (sl "/x") none none rfl
    (by intro kv hkv; simp [docPathsOf] at hkv) (by simp [docPathsOf])

/-- C6 counterexample.  The path "/things/{id}" declares no parameter, so
the generator emits the generic matcher for `{id}` even though the name
contains "id"; the claimed precedence (id-name heuristic independent of a
declared string-typed schema) would emit the digits-or-UUID-or-24-hex
matcher instead.  The same divergence occurs for a declared non-string
schema (e.g. type boolean) with an id-containing name. -/
theorem generatePathPatterns_id_heuristic_counterexample :
    generatePathPatterns (some docThings) (fun _ => true)
      = [⟨sl "^\\/things\\/([^\\/]+)$", sl "/things/{id}", 50⟩]
    ∧ claimedParamPattern none (sl "id") = idHeuristicPat
    ∧ selectParamPattern none (sl "id") = genericPat
    ∧ genericPat ≠ idHeuristicPat := by
  refine ⟨by decide, by decide, by decide, by decide⟩

/-- C6 amended.  Every emitted pattern carries priority 50, a compiling
regex source, and a declared templated path; a path whose regex fails to
build (or whose item is falsy) is skipped, never thrown.  The matcher
precedence is: explicit schema pattern, then enum alternation, then
digits-only for integer/number type, then the RFC4122 uuid shape, then the
ISO date and date-time shapes, then — only for parameters with a declared
string-typed schema — the digits-or-UUID-or-24-hex heuristic when the name
contains "id", else the generic any-non-slash matcher; a parameter with no
resolvable schema always gets the generic matcher. -/
theorem generatePathPatterns_matcher_precedence :
    (∀ (spec? : Option IOpenAPIDocument) (regexOk : Str → Bool),
        ∀ gp ∈ generatePathPatterns spec? regexOk,
          gp.priority = 50 ∧ regexOk gp.patternSource = true
            ∧ ∃ kv ∈ docPathsOf spec?, kv.1 = gp.template)
    ∧ (∀ name, selectParamPattern none name = genericPat)
    ∧ (∀ info name, info.pattern.getD [] ≠ [] →
        selectParamPattern (some info) name
          = ('(' :: info.pattern.getD []) ++ [')'])
    ∧ (∀ info name, info.pattern.getD [] = [] → info.enumVals.getD [] ≠ [] →
        selectParamPattern (some info) name
          = ('(' :: joinBar (info.enumVals.getD [])) ++ [')'])
    ∧ (∀ info name, info.pattern.getD [] = [] → info.enumVals.getD [] = [] →
        (info.type = some (sl "integer") ∨ info.type = some (sl "number")) →
        selectParamPattern (some info) name = digitsPat)
    ∧ (∀ info name, info.pattern.getD [] = [] → info.enumVals.getD [] = [] →
        ¬ (info.type = some (sl "integer") ∨ info.type = some (sl "number")) →
        info.format = some (sl "uuid") →
        selectParamPattern (some info) name = uuidPat)
    ∧ (∀ info name, info.pattern.getD [] = [] → info.enumVals.getD [] = [] →
        ¬ (info.type = some (sl "integer") ∨ info.type = some (sl "number")) →
        info.format ≠ some (sl "uuid") → info.format = some (sl "date") →
        selectParamPattern (some info) name = datePat)
    ∧ (∀ info name, info.pattern.getD [] = [] → info.enumVals.getD [] = [] →
        ¬ (info.type = some (sl "integer") ∨ info.type = some (sl "number")) →
        info.format ≠ some (sl "uuid") → info.format ≠ some (sl "date") →
        info.format = some (sl "date-time") →
        selectParamPattern (some info) name = dateTimePat)
    ∧ (∀ info name, info.pattern.getD [] = [] → info.enumVals.getD [] = [] →
        ¬ (info.type = some (sl "integer") ∨ info.type = some (sl "number")) →
        info.format ≠ some (sl "uuid") → info.format ≠ some (sl "date") →
        info.format ≠ some (sl "date-time") →
        info.type = some (sl "string") →
        strIncludes (strToLower name) (sl "id") = true →
        selectParamPattern (some info) name = idHeuristicPat)
    ∧ (∀ info name, info.pattern.getD [] = [] → info.enumVals.getD [] = [] →
        ¬ (info.type = some (sl "integer") ∨ info.type = some (sl "number")) →
        info.format ≠ some (sl "uuid") → info.format ≠ some (sl "date") →
        info.format ≠ some (sl "date-time") →
        ¬ (info.type = some (sl "string")
            ∧ strIncludes (strToLower name) (sl "id") = true) →
        selectParamPattern (some info) name = genericPat) := by
  refine ⟨?_, fun name => rfl, ?_, ?_, ?_, ?_, ?_, ?_, ?_, ?_⟩
  · intro spec? regexOk gp hgp
    rcases spec? with _ | doc
    · simp [generatePathPatterns] at hgp
    · simp only [generatePathPatterns] at hgp
      rcases List.mem_filterMap.mp hgp with ⟨k, hk_mem, hbuild⟩
      unfold buildPatternFor at hbuild
      by_cases hbrace : k.contains '{' = true
      · rw [if_neg (show ¬¬(k.contains '{' = true) from fun hc => hc hbrace)]
          at hbuild
        rcases hlook : specLookup doc k with _ | oitem
        · rw [hlook] at hbuild; simp at hbuild
        · rw [hlook] at hbuild
          rcases oitem with _ | item
          · simp at hbuild
          · have hbuild2 : (if ((collectParamNames k).all
                  (fun n => regexOk (('\\' :: '{' :: n) ++ ['\\', '}']))
                    && regexOk (buildPatternString doc item k)) = true then
                some (⟨buildPatternString doc item k, k, 50⟩ : GenPattern)
              else none) = some gp := hbuild
            by_cases hok : ((collectParamNames k).all
                (fun n => regexOk (('\\' :: '{' :: n) ++ ['\\', '}']))
                  && regexOk (buildPatternString doc item k)) = true
            · rw [if_pos hok] at hbuild2
              have hgp_eq : gp = ⟨buildPatternString doc item k, k, 50⟩ :=
                (Option.some.inj hbuild2).symm
              subst hgp_eq
              refine ⟨rfl, (Bool.and_eq_true _ _ ▸ hok).2, ?_⟩
              rcases List.mem_map.mp hk_mem with ⟨kv, hkv_mem, hkv_eq⟩
              exact ⟨kv, hkv_mem, hkv_eq⟩
            · rw [if_neg hok] at hbuild2
              simp at hbuild2
      · rw [if_pos (show ¬(k.contains '{' = true) from hbrace)] at hbuild
        simp at hbuild
  · intro info name hpat
    simp only [selectParamPattern]
    rw [if_pos hpat]
  · intro info name hpat henum
    simp only [selectParamPattern]
    rw [if_neg (fun hc => hc hpat), if_pos henum]
  · intro info name hpat henum hty
    simp only [selectParamPattern]
    rw [if_neg (fun hc => hc hpat), if_neg (fun hc => hc henum), if_pos hty]
  · intro info name hpat henum hty hfmt
    simp only [selectParamPattern]
    rw [if_neg (fun hc => hc hpat), if_neg (fun hc => hc henum), if_neg hty,
      if_pos hfmt]
  · intro info name hpat henum hty hfu hfd
    simp only [selectParamPattern]
    rw [if_neg (fun hc => hc hpat), if_neg (fun hc => hc henum), if_neg hty,
      if_neg hfu, if_pos hfd]
  · intro info name hpat henum hty hfu hfd hfdt
    simp only [selectParamPattern]
    rw [if_neg (fun hc => hc hpat), if_neg (fun hc => hc henum), if_neg hty,
      if_neg hfu, if_neg hfd, if_pos hfdt]
  · intro info name hpat henum hty hfu hfd hfdt hstr hid
    simp only [selectParamPattern]
    rw [if_neg (fun hc => hc hpat), if_neg (fun hc => hc henum), if_neg hty,
      if_neg hfu, if_neg hfd, if_neg hfdt, if_pos ⟨hstr, hid⟩]
  · intro info name hpat henum hty hfu hfd hfdt hheur
    simp only [selectParamPattern]
    rw [if_neg (fun hc => hc hpat), if_neg (fun hc => hc henum), if_neg hty,
      if_neg hfu, if_neg hfd, if_neg hfdt, if_neg hheur]

/-- Witness for the amended C6: the concrete emitted pattern for
"/things/{id}" carries priority 50, a compiling source, and the declared
template. -/
theorem generatePathPatterns_matcher_precedence_witness :
    (⟨sl "^\\/things\\/([^\\/]+)$", sl "/things/{id}", 50⟩ : GenPattern).priority = 50
    ∧ (fun _ => true) (⟨sl "^\\/things\\/([^\\/]+)$", sl "/things/{id}",
        50⟩ : GenPattern).patternSource = true
    ∧ ∃ kv ∈ docPathsOf (some docThings),
        kv.1 = (⟨sl "^\\/things\\/([^\\/]+)$", sl "/things/{id}",
          50⟩ : GenPattern).template :=
  generatePathPatterns_matcher_precedence.1 (some docThings) (fun _ => true)
    ⟨sl "^\\/things\\/([^\\/]+)$", sl "/things/{id}", 50⟩ (by decide)

lemma strIncludes_iff {hay needle : Str} :
    strIncludes hay needle = true ↔ needle <:+: hay := by
  unfold strIncludes
  rw [List.any_eq_true]
  constructor
  · rintro ⟨t, ht, hpre⟩
    have h1 : needle <+: t := List.isPrefixOf_iff_prefix.mp hpre
    have h2 : t <:+ hay := (List.mem_tails _ _).mp ht
    exact List.infix_iff_prefix_suffix.mpr ⟨t, h1, h2⟩
  · intro h
    rcases List.infix_iff_prefix_suffix.mp h with ⟨t, h1, h2⟩
    exact ⟨t, (List.mem_tails _ _).mpr h2, List.isPrefixOf_iff_prefix.mpr h1⟩

lemma malformed_of_contained {s e : Str} (hinf : s <:+: e)
    (h : isMalformedPath s = true) : isMalformedPath e = true := by
  unfold isMalformedPath at h ⊢
  rcases Bool.or_eq_true _ _ |>.mp h with h2 | h2
  · rcases Bool.or_eq_true _ _ |>.mp h2 with h3 | h3
    · have := (strIncludes_iff.mp h3).trans hinf
      simp [strIncludes_iff.mpr this]
    · have := (strIncludes_iff.mp h3).trans hinf
      simp [strIncludes_iff.mpr this]
  · have := (strIncludes_iff.mp h2).trans hinf
    simp [strIncludes_iff.mpr this]

lemma pathOf_contained (e : Str) : pathOf e <:+: e := by
  unfold pathOf
  have h1 : ((e.dropWhile (fun c => c ≠ ' ')).drop 1).takeWhile (fun c => c ≠ ' ')
      <+: (e.dropWhile (fun c => c ≠ ' ')).drop 1 := List.takeWhile_prefix _
  have h2 : (e.dropWhile (fun c => c ≠ ' ')).drop 1 <:+ e.dropWhile (fun c => c ≠ ' ') :=
    List.drop_suffix _ _
  have h3 : e.dropWhile (fun c => c ≠ ' ') <:+ e := List.dropWhile_suffix _
  exact h1.isInfix.trans (h2.trans h3).isInfix

lemma mem_mapSet {m : List (Str × Str)} {k v : Str} {kv : Str × Str}
    (h : kv ∈ mapSet m k v) : kv ∈ m ∨ kv = (k, v) := by
  unfold mapSet at h
  by_cases hany : m.any (fun kv => kv.1 = k) = true
  · rw [if_pos hany] at h
    rcases List.mem_map.mp h with ⟨kv₀, h₀, heq⟩
    by_cases hk : kv₀.1 = k
    · rw [if_pos hk] at heq
      exact Or.inr heq.symm
    · rw [if_neg hk] at heq
      rw [← heq]
      exact Or.inl h₀
  · rw [if_neg hany] at h
    rcases List.mem_append.mp h with h2 | h2
    · exact Or.inl h2
    · exact Or.inr (by simpa using h2)

lemma processEndpoint_mem {patterns : List IEndpointPattern}
    {m : List (Str × Str)} {endpoint : Str} {kv : Str × Str}
    (h : kv ∈ processEndpoint patterns m endpoint) :
    kv ∈ m ∨ (kv.2 = methodOf endpoint ++ (' ' :: keptPath patterns (pathOf endpoint))
      ∧ isMalformedPath endpoint = false) := by
  unfold processEndpoint at h
  by_cases h1 : isMalformedPath endpoint = true
  · rw [if_pos h1] at h
    exact Or.inl h
  · have h1' : isMalformedPath endpoint = false := Bool.eq_false_iff.mpr h1
    rw [if_neg h1] at h
    by_cases h2 : pathOf endpoint = []
    · rw [if_pos h2] at h
      exact Or.inl h
    · rw [if_neg h2] at h
      by_cases h3 : isTemplatedKey
          (methodOf endpoint ++ (' ' :: keptPath patterns (pathOf endpoint))) = true
      · rw [if_pos h3] at h
        rcases mem_mapSet h with h4 | h4
        · exact Or.inl h4
        · exact Or.inr ⟨by rw [h4], h1'⟩
      · rw [if_neg h3] at h
        by_cases h4 : m.any (fun kv =>
            kv.1 = structKeyMP (methodOf endpoint)
              (keptPath patterns (pathOf endpoint))) = true
        · rw [if_pos h4] at h
          exact Or.inl h
        · rw [if_neg h4] at h
          rcases mem_mapSet h with h5 | h5
          · exact Or.inl h5
          · exact Or.inr ⟨by rw [h5], h1'⟩

lemma foldl_processEndpoint_mem (patterns : List IEndpointPattern)
    (es : List Str) :
    ∀ (m : List (Str × Str)) (kv : Str × Str),
      kv ∈ es.foldl (processEndpoint patterns) m →
      kv ∈ m ∨ ∃ src ∈ es,
        kv.2 = methodOf src ++ (' ' :: keptPath patterns (pathOf src))
          ∧ isMalformedPath src = false := by
  induction es with
  | nil => intro m kv h; exact Or.inl h
  | cons e es ih =>
    intro m kv h
    rcases ih (processEndpoint patterns m e) kv h with h2 | h2
    · rcases processEndpoint_mem h2 with h3 | h3
      · exact Or.inl h3
      · exact Or.inr ⟨e, List.mem_cons_self _ _, h3.1, h3.2⟩
    · rcases h2 with ⟨src, hsrc, hkv⟩
      exact Or.inr ⟨src, List.mem_cons_of_mem _ hsrc, hkv⟩

/-- C7 counterexample.  With pattern file entries "id"→id and "42"→num,
the endpoint "GET /users/{id}" substitutes to the malformed
"/users/{{id}}" and reverts to its pre-substitution path, but the later
endpoint "GET /users/42" cleanly substitutes to the same structure key
"GET /users/{PARAM}" and overwrites it: the pre-substitution path is NOT
kept in the output, refuting the claim as stated. -/
theorem normalizeEndpoints_revert_dropped_counterexample :
    isMalformedPath (substPath [epPatId, epPat42] (sl "/users/{id}")) = true
    ∧ keptPath [epPatId, epPat42] (sl "/users/{id}") = sl "/users/{id}"
    ∧ normalizeEndpoints [sl "GET /users/{id}", sl "GET /users/42"]
        [epPatId, epPat42] = [sl "GET /users/{num}"]
    ∧ sl "GET /users/{id}"
        ∉ normalizeEndpoints [sl "GET /users/{id}", sl "GET /users/42"]
            [epPatId, epPat42] := by
  refine ⟨by decide, by decide, by decide, by decide⟩

/-- C7 amended.  A substitution producing a malformed path is rejected and
the endpoint processed under its pre-substitution path (first conjunct);
every output endpoint is some input's method plus its kept
(clean-or-reverted) path, and that path is never malformed (second
conjunct) — but the kept pre-substitution endpoint may later be overwritten
by a structurally equivalent templated endpoint, so it is not always
present in the output. -/
theorem normalizeEndpoints_malformed_revert :
    (∀ (patterns : List IEndpointPattern) (path : Str),
        isMalformedPath (substPath patterns path) = true →
        keptPath patterns path = path)
    ∧ (∀ (endpoints : List Str) (patterns : List IEndpointPattern) (e : Str),
        patterns ≠ [] → e ∈ normalizeEndpoints endpoints patterns →
        ∃ src ∈ endpoints,
          e = methodOf src ++ (' ' :: keptPath patterns (pathOf src))
            ∧ isMalformedPath (keptPath patterns (pathOf src)) = false) := by
  constructor
  · intro patterns path h
    unfold keptPath
    rw [if_pos h]
  · intro endpoints patterns e hps he
    unfold normalizeEndpoints at he
    rw [if_neg (fun h0 => hps (List.length_eq_zero.mp h0))] at he
    rcases List.mem_map.mp he with ⟨kv, hkv_mem, hkv_eq⟩
    rcases foldl_processEndpoint_mem patterns endpoints [] kv hkv_mem with h | h
    · simp at h
    · rcases h with ⟨src, hsrc_mem, hval, hclean⟩
      refine ⟨src, hsrc_mem, by rw [← hkv_eq, hval], ?_⟩
      unfold keptPath
      by_cases hm : isMalformedPath (substPath patterns (pathOf src)) = true
      · rw [if_pos hm]
        rcases Bool.eq_false_or_eq_true (isMalformedPath (pathOf src)) with h2 | h2
        · exact absurd (malformed_of_contained (pathOf_contained src) h2) (by simp [hclean])
        · exact h2
      · rw [if_neg hm]
        exact Bool.eq_false_iff.mpr hm

/-- Witness for the amended C7 at the concrete counterexample run: the
surviving output endpoint traces back to an input endpoint's kept path. -/
theorem normalizeEndpoints_malformed_revert_witness :
    ∃ src ∈ [sl "GET /users/{id}", sl "GET /users/42"],
      sl "GET /users/{num}"
          = methodOf src ++ (' ' :: keptPath [epPatId, epPat42] (pathOf src))
        ∧ isMalformedPath (keptPath [epPatId, epPat42] (pathOf src)) = false :=
  normalizeEndpoints_malformed_revert.2
    [sl "GET /users/{id}", sl "GET /users/42"] [epPatId, epPat42]
    (sl "GET /users/{num}") (List.cons_ne_nil _ _) (by decide)

lemma lookupCount_eq_zero_of_not_mem {l : List (Str × Nat)} {st : Str}
    (h : st ∉ l.map (fun kv => kv.1)) : lookupCount l st = 0 := by
  induction l with
  | nil => rfl
  | cons kv rest ih =>
    simp only [List.map_cons, List.mem_cons, not_or] at h
    unfold lookupCount
    rw [if_neg (fun hc => h.1 hc.symm)]
    exact ih h.2

lemma lookupCount_map_upd_eq {l : List (Str × Nat)} {st : Str} {n : Nat}
    (h : l.any (fun kv => kv.1 = st) = true) :
    lookupCount (l.map (fun kv => if kv.1 = st then (st, kv.2 + n) else kv)) st
      = lookupCount l st + n := by
  induction l with
  | nil => simp at h
  | cons kv rest ih =>
    by_cases hk : kv.1 = st
    · simp only [List.map_cons, if_pos hk]
      unfold lookupCount
      rw [if_pos rfl, if_pos hk]
    · simp only [List.map_cons, if_neg hk]
      unfold lookupCount
      rw [if_neg hk, if_neg hk]
      have h' : rest.any (fun kv => kv.1 = st) = true := by
        rcases List.any_eq_true.mp h with ⟨x, hx, hxe⟩
        rcases List.mem_cons.mp hx with he | he
        · exfalso; apply hk; rw [he] at hxe; exact of_decide_eq_true hxe
        · exact List.any_eq_true.mpr ⟨x, he, hxe⟩
      exact ih h'

lemma lookupCount_map_upd_ne {l : List (Str × Nat)} {st st' : Str} {n : Nat}
    (h : st' ≠ st) :
    lookupCount (l.map (fun kv => if kv.1 = st then (st, kv.2 + n) else kv)) st'
      = lookupCount l st' := by
  induction l with
  | nil => rfl
  | cons kv rest ih =>
    by_cases hk : kv.1 = st
    · simp only [List.map_cons, if_pos hk]
      unfold lookupCount
      rw [if_neg (fun hc => h hc.symm), if_neg (fun hc => h (hk ▸ hc).symm)]
      · exact ih
    · simp only [List.map_cons, if_neg hk]
      unfold lookupCount
      by_cases hk' : kv.1 = st'
      · rw [if_pos hk', if_pos hk']
      · rw [if_neg hk', if_neg hk']
        exact ih

lemma lookupCount_append_single {l : List (Str × Nat)} {st st' : Str} {n : Nat}
    (h : l.any (fun kv => kv.1 = st) = false) :
    lookupCount (l ++ [(st, n)]) st' =
      lookupCount l st' + (if st = st' then n else 0) := by
  induction l with
  | nil =>
    by_cases he : st = st' <;> simp [lookupCount, he]
  | cons kv rest ih =>
    have h' : rest.any (fun kv => kv.1 = st) = false := by
      rw [List.any_eq_false] at h ⊢
      intro x hx
      exact h x (List.mem_cons_of_mem _ hx)
    show lookupCount (kv :: (rest ++ [(st, n)])) st' = _
    unfold lookupCount
    by_cases hk : kv.1 = st'
    · rw [if_pos hk, if_pos hk]
      have hne : ¬ st = st' := by
        intro he
        rw [List.any_eq_false] at h
        exact h kv (List.mem_cons_self _ _) (by simp [hk, he])
      rw [if_neg hne]
      omega
    · rw [if_neg hk, if_neg hk]
      exact ih h'

lemma lookupCount_addStatusCount (m : List (Str × Nat)) (st : Str) (n : Nat)
    (st' : Str) :
    lookupCount (addStatusCount m st n) st'
      = lookupCount m st' + (if st = st' then n else 0) := by
  unfold addStatusCount
  by_cases hany : m.any (fun kv => kv.1 = st) = true
  · rw [if_pos hany]
    by_cases he : st = st'
    · subst he
      rw [if_pos rfl, lookupCount_map_upd_eq hany]
    · rw [if_neg he, lookupCount_map_upd_ne (fun hc => he hc.symm)]
      omega
  · rw [if_neg hany]
    exact lookupCount_append_single (Bool.eq_false_iff.mpr hany)

lemma lookupCount_mergeStatusCodes (sc : List (Str × Nat)) :
    ∀ (a : List (Str × Nat)) (st : Str), (sc.map (fun kv => kv.1)).Nodup →
      lookupCount (mergeStatusCodes a sc) st
        = lookupCount a st + lookupCount sc st := by
  induction sc with
  | nil => intro a st _; show lookupCount a st = _; unfold lookupCount; omega
  | cons kv rest ih =>
    intro a st hnd
    simp only [List.map_cons, List.nodup_cons] at hnd
    show lookupCount (mergeStatusCodes (addStatusCount a kv.1 kv.2) rest) st = _
    rw [ih _ st hnd.2, lookupCount_addStatusCount]
    show _ = lookupCount a st + lookupCount (kv :: rest) st
    rw [show lookupCount (kv :: rest) st
        = if kv.1 = st then kv.2 else lookupCount rest st from rfl]
    by_cases he : kv.1 = st
    · rw [if_pos he, if_pos he]
      have hz : lookupCount rest st = 0 := by
        apply lookupCount_eq_zero_of_not_mem
        rw [← he]
        exact hnd.1
      rw [hz]
      omega
    · rw [if_neg he, if_neg he]
      omega

lemma foldl_count_sum (records : List IServerErrorRecord) :
    ∀ n : Nat, records.foldl (fun a r => a + r.count) n
      = n + (records.map (fun r => r.count)).sum := by
  induction records with
  | nil => intro n; simp
  | cons r rs ih =>
    intro n
    show rs.foldl (fun a r => a + r.count) (n + r.count) = _
    rw [ih]
    simp
    omega

lemma foldl_mergeStatusCodes_sum (records : List IServerErrorRecord) :
    ∀ (a : List (Str × Nat)) (st : Str),
      (∀ r ∈ records, (r.statusCodes.map (fun kv => kv.1)).Nodup) →
      lookupCount (records.foldl (fun a r => mergeStatusCodes a r.statusCodes) a) st
        = lookupCount a st
          + (records.map (fun r => lookupCount r.statusCodes st)).sum := by
  induction records with
  | nil => intro a st _; simp
  | cons r rs ih =>
    intro a st hnd
    show lookupCount
        (rs.foldl (fun a r => mergeStatusCodes a r.statusCodes)
          (mergeStatusCodes a r.statusCodes)) st = _
    rw [ih _ st (fun x hx => hnd x (List.mem_cons_of_mem _ hx)),
      lookupCount_mergeStatusCodes _ _ _ (hnd r (List.mem_cons_self _ _))]
    simp
    omega

/-- C8 counterexample.  Two concrete 24-hex endpoints fall in one
structural group; the merged record sums counts (3) and histograms
(500→1, 503→2) but keeps the EARLIEST message "first" — not the
latest-seen "second" the claim requires. -/
theorem generateServerErrorStats_first_message_counterexample :
    errorStructKey (sl "GET /users/aaaaaaaaaaaaaaaaaaaaaaaa")
      = errorStructKey (sl "GET /users/bbbbbbbbbbbbbbbbbbbbbbbb")
    ∧ mergeServerErrors errEntriesC8
        = [(sl "GET /users/aaaaaaaaaaaaaaaaaaaaaaaa",
            ⟨3, [(sl "500", 1), (sl "503", 2)], sl "first"⟩)]
    ∧ sl "first" ≠ sl "second" := by
  refine ⟨by decide, by decide, by decide⟩

/-- C8 amended.  Records grouped under one structural key are merged by
summing counts and summing the per-status histograms entrywise; the merged
record's message is the EARLIEST-seen (first) message among the group's
records; and the representative is the first templated endpoint when the
group has one, else the group's first endpoint. -/
theorem generateServerErrorStats_merge_fields :
    (∀ records : List IServerErrorRecord,
        (mergeGroupRecords records).count
          = (records.map (fun r => r.count)).sum)
    ∧ (∀ (records : List IServerErrorRecord) (st : Str),
        (∀ r ∈ records, (r.statusCodes.map (fun kv => kv.1)).Nodup) →
        lookupCount (mergeGroupRecords records).statusCodes st
          = (records.map (fun r => lookupCount r.statusCodes st)).sum)
    ∧ (∀ (r₀ : IServerErrorRecord) (rs : List IServerErrorRecord),
        (mergeGroupRecords (r₀ :: rs)).lastError = r₀.lastError)
    ∧ (∀ (g : List (Str × IServerErrorRecord)) (t : Str),
        (g.map (fun e => e.1)).find? isTemplatedKey = some t →
        groupTarget g = t ∧ isTemplatedKey t = true)
    ∧ (∀ g : List (Str × IServerErrorRecord),
        (g.map (fun e => e.1)).find? isTemplatedKey = none →
        groupTarget g = (g.head?.map (fun e => e.1)).getD []) := by
  refine ⟨?_, ?_, ?_, ?_, ?_⟩
  · intro records
    show records.foldl (fun a r => a + r.count) 0 = _
    rw [foldl_count_sum]
    omega
  · intro records st hnd
    show lookupCount (records.foldl (fun a r => mergeStatusCodes a r.statusCodes) []) st = _
    rw [foldl_mergeStatusCodes_sum records [] st hnd]
    show 0 + _ = _
    omega
  · intro r₀ rs
    rfl
  · intro g t h
    constructor
    · unfold groupTarget
      rw [h]
    · exact List.find?_some h
  · intro g h
    unfold groupTarget
    rw [h]

/-- Witness for the amended C8 at the concrete two-record group. -/
theorem generateServerErrorStats_merge_fields_witness :
    lookupCount (mergeGroupRecords [errRecA, errRecB]).statusCodes (sl "503")
      = ([errRecA, errRecB].map
          (fun r => lookupCount r.statusCodes (sl "503"))).sum :=
  generateServerErrorStats_merge_fields.2.1 [errRecA, errRecB] (sl "503")
    (by decide)

lemma round2_zero : round2 0 = 0 := by
  unfold round2
  rw [show ((0 : ℚ) * 100 + 1 / 2) = 1 / 2 by norm_num]
  rw [show Int.floor ((1 : ℚ) / 2) = 0 from by norm_num [Int.floor_eq_iff]]
  norm_num

lemma map_fst_of_update {α β : Type} (f : α × β → α × β)
    (hf : ∀ x, (f x).1 = x.1) (l : List (α × β)) :
    (l.map f).map (fun kv => kv.1) = l.map (fun kv => kv.1) := by
  rw [List.map_map]
  apply List.map_congr_left
  intro kv _
  exact hf kv

lemma foldl_keys {α β γ : Type} (step : List (α × β) → γ → List (α × β))
    (hstep : ∀ m e, (step m e).map (fun kv => kv.1) = m.map (fun kv => kv.1)) :
    ∀ (es : List γ) (init : List (α × β)),
      (es.foldl step init).map (fun kv => kv.1) = init.map (fun kv => kv.1) := by
  intro es
  induction es with
  | nil => intro init; rfl
  | cons e es ih =>
    intro init
    rw [List.foldl_cons, ih, hstep]

lemma foldl_preserve {α γ : Type} (P : α → Prop) (step : α → γ → α)
    (hstep : ∀ m e, P m → P (step m e)) :
    ∀ (es : List γ) (init : α), P init → P (es.foldl step init) := by
  intro es
  induction es with
  | nil => intro init h; exact h
  | cons e es ih =>
    intro init h
    exact ih _ (hstep _ _ h)

lemma mcStep_keys (tested : List Str) (m : List (Str × IMethodCoverage))
    (e : Str) :
    (mcStep tested m e).map (fun kv => kv.1) = m.map (fun kv => kv.1) := by
  unfold mcStep
  rw [List.map_map]
  apply List.map_congr_left
  intro kv _
  simp only [Function.comp]
  by_cases h : kv.1 = methodOf e
  · rw [if_pos h]
  · rw [if_neg h]

lemma mcInit_keys : mcInit.map (fun kv => kv.1) = sevenMethods := by
  unfold mcInit
  rw [List.map_map]
  show sevenMethods.map (fun m => m) = sevenMethods
  exact List.map_id _

lemma mcStep_pct (tested : List Str) (m : List (Str × IMethodCoverage))
    (e : Str) (h : ∀ kv ∈ m, kv.2.percentage = 0) :
    ∀ kv ∈ mcStep tested m e, kv.2.percentage = 0 := by
  intro kv hkv
  unfold mcStep at hkv
  rcases List.mem_map.mp hkv with ⟨kv₁, h₁, heq₁⟩
  by_cases hk : kv₁.1 = methodOf e
  · rw [if_pos hk] at heq₁
    rw [← heq₁]
    exact h kv₁ h₁
  · rw [if_neg hk] at heq₁
    rw [← heq₁]
    exact h kv₁ h₁

lemma generateMethodCoverage_keys (spec tested : List Str) :
    (generateMethodCoverage spec tested).map (fun kv => kv.1) = sevenMethods := by
  unfold generateMethodCoverage
  rw [map_fst_of_update mcFinal (fun x => rfl) _]
  rw [foldl_keys (mcStep tested) (mcStep_keys tested) spec mcInit]
  exact mcInit_keys

lemma generateMethodCoverage_pct_zero (spec tested : List Str)
    (m : Str) (cov : IMethodCoverage)
    (hmem : (m, cov) ∈ generateMethodCoverage spec tested)
    (htot : cov.total = 0) : cov.percentage = 0 := by
  unfold generateMethodCoverage at hmem
  rcases List.mem_map.mp hmem with ⟨kv₀, h₀, heq⟩
  have hpct : kv₀.2.percentage = 0 := by
    have hinv := foldl_preserve
      (fun mc : List (Str × IMethodCoverage) => ∀ kv ∈ mc, kv.2.percentage = 0)
      (mcStep tested) (mcStep_pct tested) spec mcInit ?hinit
    case hinit =>
      intro kv hkv
      unfold mcInit at hkv
      rcases List.mem_map.mp hkv with ⟨m', _, heq'⟩
      rw [← heq']
    exact hinv kv₀ h₀
  have hcov : cov = (mcFinal kv₀).2 := congrArg Prod.snd heq.symm
  have htot' : kv₀.2.total = 0 := by
    rw [hcov] at htot
    exact htot
  rw [hcov]
  show (if 0 < kv₀.2.total then _ else kv₀.2.percentage) = 0
  rw [if_neg (by omega), hpct]

/-- C9.  The summary's coverage percentage is tested/total×100 rounded to
two decimal places (exact-rational idealization of float64), and 0 when
the spec declares no endpoints; the per-method breakdown covers exactly
the seven standard HTTP methods, a method with no declared endpoints
reporting percentage 0; and the five-endpoint scenario with hits
{GET /users, GET /users/{id}} reports 5/2/3 endpoints and
coveragePercentage 40.00. -/
theorem coverage_summary_and_methods :
    (∀ (spec hits : List Str) (errs : List (Str × IServerErrorRecord))
        (pats : List IEndpointPattern),
        (generateCoverageReport spec hits errs pats).summary.coveragePercentage
          = if spec.length = 0 then 0
            else round2 (((allTestedOf spec hits pats).length : ℚ)
              / (spec.length : ℚ) * 100))
    ∧ (∀ spec tested : List Str,
        (generateMethodCoverage spec tested).map (fun kv => kv.1) = sevenMethods)
    ∧ (∀ (spec tested : List Str) (m : Str) (cov : IMethodCoverage),
        (m, cov) ∈ generateMethodCoverage spec tested → cov.total = 0 →
        cov.percentage = 0)
    ∧ ((generateCoverageReport scenarioSpec scenarioHits [] []).summary.totalEndpoints
          = 5
       ∧ (generateCoverageReport scenarioSpec scenarioHits [] []).summary.testedEndpoints
          = 2
       ∧ (generateCoverageReport scenarioSpec scenarioHits [] []).summary.untestedEndpoints
          = 3
       ∧ (generateCoverageReport scenarioSpec scenarioHits [] []).summary.coveragePercentage
          = 40) := by
  refine ⟨?_, generateMethodCoverage_keys, generateMethodCoverage_pct_zero,
    by decide, by decide, by decide, ?_⟩
  · intro spec hits errs pats
    show round2 (if 0 < spec.length then
        ((allTestedOf spec hits pats).length : ℚ) / (spec.length : ℚ) * 100
      else 0) = _
    by_cases h : spec.length = 0
    · rw [if_pos h, if_neg (show ¬ 0 < spec.length by omega)]
      exact round2_zero
    · rw [if_neg h, if_pos (Nat.pos_of_ne_zero h)]
  · show round2 (if 0 < scenarioSpec.length then
        ((allTestedOf scenarioSpec scenarioHits []).length : ℚ)
          / (scenarioSpec.length : ℚ) * 100
      else 0) = 40
    rw [show (allTestedOf scenarioSpec scenarioHits []).length = 2 from by decide,
      show scenarioSpec.length = 5 from by decide]
    rw [if_pos (by omega)]
    unfold round2
    rw [show (((2 : ℕ) : ℚ) / ((5 : ℕ) : ℚ) * 100 * 100 + 1 / 2 : ℚ)
        = (4000.5 : ℚ) from by push_cast; norm_num]
    rw [show Int.floor (4000.5 : ℚ) = 4000 from by norm_num [Int.floor_eq_iff]]
    norm_num

/-- Witness for C9: with an empty spec, the GET row has no declared
endpoints and reports percentage 0. -/
theorem coverage_summary_and_methods_witness :
    (⟨0, 0, 0⟩ : IMethodCoverage).percentage = 0 :=
  coverage_summary_and_methods.2.2.1 [] [] (sl "GET") ⟨0, 0, 0⟩
    (by decide) (by decide)

lemma methodOf_no_space (e : Str) : ' ' ∉ methodOf e := by
  intro h
  have := List.mem_takeWhile_imp h
  simp at this

lemma append_space_inj {m₁ m₂ x y : Str}
    (h : m₁ ++ (' ' :: x) = m₂ ++ (' ' :: y))
    (h₁ : ' ' ∉ m₁) (h₂ : ' ' ∉ m₂) : m₁ = m₂ := by
  induction m₁ generalizing m₂ with
  | nil =>
    rcases m₂ with _ | ⟨d, m₂'⟩
    · rfl
    · rw [List.nil_append, List.cons_append] at h
      injection h with hd _
      exact absurd (by rw [hd]; exact List.mem_cons_self _ _) h₂
  | cons c m₁' ih =>
    rcases m₂ with _ | ⟨d, m₂'⟩
    · rw [List.cons_append, List.nil_append] at h
      injection h with hc _
      exact absurd (by rw [← hc]; exact List.mem_cons_self _ _) h₁
    · rw [List.cons_append, List.cons_append] at h
      injection h with hc htail
      rw [hc, ih htail (fun hm => h₁ (List.mem_cons_of_mem _ hm))
        (fun hm => h₂ (List.mem_cons_of_mem _ hm))]

lemma structKeyMP_method_inj {a b pa pb : Str}
    (h : structKeyMP (methodOf a) pa = structKeyMP (methodOf b) pb) :
    methodOf a = methodOf b :=
  append_space_inj h (methodOf_no_space a) (methodOf_no_space b)

lemma mem_dedupKeepFirst_aux :
    ∀ (l : List Str) (acc : List Str) (x : Str),
      x ∈ l.foldl (fun acc x => if x ∈ acc then acc else acc ++ [x]) acc →
      x ∈ acc ∨ x ∈ l := by
  intro l
  induction l with
  | nil => intro acc x h; exact Or.inl h
  | cons y ys ih =>
    intro acc x h
    rcases ih _ x h with h2 | h2
    · have h2' : x ∈ (if y ∈ acc then acc else acc ++ [y]) := h2
      by_cases hy : y ∈ acc
      · rw [if_pos hy] at h2'
        exact Or.inl h2'
      · rw [if_neg hy] at h2'
        rcases List.mem_append.mp h2' with h3 | h3
        · exact Or.inl h3
        · exact Or.inr (by simp at h3; simp [h3])
    · exact Or.inr (List.mem_cons_of_mem _ h2)

lemma mem_dedupKeepFirst {l : List Str} {x : Str}
    (h : x ∈ dedupKeepFirst l) : x ∈ l := by
  rcases mem_dedupKeepFirst_aux l [] x h with h2 | h2
  · simp at h2
  · exact h2

lemma mem_mapSet_str {m : List (Str × Str)} {k v : Str} {kv : Str × Str}
    (h : kv ∈ mapSet m k v) : kv ∈ m ∨ kv = (k, v) := mem_mapSet h

lemma specStructures_aux (spec : List Str) :
    ∀ (es : List Str) (m : List (Str × Str)),
      (∀ e ∈ es, e ∈ spec) →
      (∀ kv ∈ m, kv.2 ∈ spec
        ∧ kv.1 = structKeyMP (methodOf kv.2) (pathOf kv.2)) →
      ∀ kv ∈ es.foldl
          (fun m e => mapSet m (structKeyMP (methodOf e) (pathOf e)) e) m,
        kv.2 ∈ spec ∧ kv.1 = structKeyMP (methodOf kv.2) (pathOf kv.2) := by
  intro es
  induction es with
  | nil => intro m _ hm kv hkv; exact hm kv hkv
  | cons e es ih =>
    intro m hes hm kv hkv
    refine ih _ (fun x hx => hes x (List.mem_cons_of_mem _ hx)) ?_ kv hkv
    intro kv' hkv'
    rcases mem_mapSet hkv' with h2 | h2
    · exact hm kv' h2
    · rw [h2]
      exact ⟨hes e (List.mem_cons_self _ _), rfl⟩

lemma specStructuresOf_mem {spec : List Str} {kv : Str × Str}
    (h : kv ∈ specStructuresOf spec) :
    kv.2 ∈ spec ∧ kv.1 = structKeyMP (methodOf kv.2) (pathOf kv.2) := by
  refine specStructures_aux spec spec [] (fun e he => he) ?_ kv h
  intro kv' hkv'
  simp at hkv'

lemma classify_fst_aux (spec : List Str) (structs : List (Str × Str)) :
    ∀ (hits' : List Str) (acc : List Str × List Str) (x : Str),
      x ∈ (hits'.foldl (classifyStep spec structs) acc).1 →
      x ∈ acc.1 ∨ ∃ hit ∈ hits', ∃ kv ∈ structs,
        kv.1 = structKeyMP (methodOf hit) (pathOf hit) ∧ kv.2 = x := by
  intro hits'
  induction hits' with
  | nil => intro acc x h; exact Or.inl h
  | cons e es ih =>
    intro acc x h
    rcases ih _ x h with h2 | h2
    · unfold classifyStep at h2
      by_cases hspec : e ∈ spec
      · rw [if_pos hspec] at h2
        exact Or.inl h2
      · rw [if_neg hspec] at h2
        rcases hfind : structs.find?
            (fun kv => kv.1 = structKeyMP (methodOf e) (pathOf e)) with _ | kv
        · rw [hfind] at h2
          exact Or.inl h2
        · rw [hfind] at h2
          have h2' : x ∈ (if kv.2 ≠ [] then (acc.1 ++ [kv.2], acc.2) else acc).1 := h2
          by_cases hv : kv.2 ≠ []
          · rw [if_pos hv] at h2'
            rcases List.mem_append.mp h2' with h3 | h3
            · exact Or.inl h3
            · have hx : kv.2 = x := by
                have := List.mem_singleton.mp h3
                exact this.symm
              have hpred := List.find?_some hfind
              have hmem := List.mem_of_find?_eq_some hfind
              refine Or.inr ⟨e, List.mem_cons_self _ _, kv, hmem,
                of_decide_eq_true hpred, hx⟩
          · rw [if_neg hv] at h2'
            exact Or.inl h2'
    · rcases h2 with ⟨hit, hmem, rest⟩
      exact Or.inr ⟨hit, List.mem_cons_of_mem _ hmem, rest⟩

/-- C10.  Every structural comparison at the public interface requires
exact HTTP method equality: the template-match predicate demands equal
methods before any segment comparison; equal structure keys force equal
methods (the method is the space-free prefix of the key); and every spec
endpoint counted as tested by the report — exactly or structurally — is
witnessed by a normalized hit of the same method. -/
theorem method_equality_required :
    (∀ c t : Str, endpointMatchesTemplate c t = true → methodOf c = methodOf t)
    ∧ (∀ a b pa pb : Str,
        structKeyMP (methodOf a) pa = structKeyMP (methodOf b) pb →
        methodOf a = methodOf b)
    ∧ (∀ (spec hits : List Str) (pats : List IEndpointPattern) (e : Str),
        e ∈ allTestedOf spec hits pats →
        e ∈ spec ∧ ∃ h ∈ normalizedHitsOf hits pats, methodOf h = methodOf e) := by
  refine ⟨?_, fun a b pa pb h => structKeyMP_method_inj h, ?_⟩
  · intro c t h
    by_cases hm : methodOf c = methodOf t
    · exact hm
    · unfold endpointMatchesTemplate at h
      rw [if_pos hm] at h
      exact absurd h (by simp)
  · intro spec hits pats e he
    unfold allTestedOf at he
    have he2 := mem_dedupKeepFirst he
    rcases List.mem_append.mp he2 with h2 | h2
    · unfold testedExact at h2
      have h3 := List.mem_filter.mp h2
      refine ⟨h3.1, e, of_decide_eq_true h3.2, rfl⟩
    · unfold classifyHits at h2
      rcases classify_fst_aux spec (specStructuresOf spec)
          (normalizedHitsOf hits pats) ([], []) e h2 with h3 | h3
      · simp at h3
      · rcases h3 with ⟨hit, hhit, kv, hkv, hkey, hval⟩
        have hstruct := specStructuresOf_mem hkv
        have hmeth : methodOf hit = methodOf kv.2 := by
          apply structKeyMP_method_inj
          rw [← hkey, hstruct.2]
        refine ⟨hval ▸ hstruct.1, hit, hhit, ?_⟩
        rw [hmeth, hval]

/-- Witness for C10 on the concrete scenario: the tested endpoint
"GET /users" is a declared endpoint with a same-method hit. -/
theorem method_equality_required_witness :
    sl "GET /users" ∈ scenarioSpec
    ∧ ∃ h ∈ normalizedHitsOf scenarioHits [],
        methodOf h = methodOf (sl "GET /users") :=
  method_equality_required.2.2 scenarioSpec scenarioHits [] (sl "GET /users")
    (by decide)
